import Mathlib

/-!
Verification of the GST resource accounting and elastic rate-limiting engine
(`libraries/chain/resource_limits.cpp`).

The development shallowly embeds the manager's data model and operations:
machine integers are modelled as `Nat` / `Int` with explicit `% 2^w` at the
points where the C++ arithmetic truncates; the chainbase store is modelled as
a record of keyed tables; C++ exceptions are modelled by returning the
mutated-so-far store together with an `Option Err` (chainbase performs no
rollback on throw -- that is the caller's storage transaction's job), or by
`Except Err` for operations that throw before mutating anything.

Pieces declared in `resource_limits_private.hpp` (which is not part of this
source tree: the exponential-moving-average accumulator, ratio
multiplication, `integer_divide_ceil`, `downgrade_cast`) are modelled from
the specification and marked as such in their doc comments.
-/

namespace GstResource

/-- 2^64, the modulus of `uint64_t` arithmetic. -/
def U64 : Nat := 18446744073709551616

/-- 2^64 - 1, i.e. `UINT64_MAX`. -/
def U64MAX : Nat := 18446744073709551615

/-- 2^128, the modulus of `uint128_t` arithmetic. -/
def U128 : Nat := 340282366920938463463374607431768211456

/-- 2^63, first value that no longer fits in `int64_t`. -/
def I64HI : Nat := 9223372036854775808

/-- Reinterpret a `uint64_t` value (a natural below 2^64) as `int64_t`,
as done by the C++ cast `(int64_t)x`. -/
def toInt64 (n : Nat) : Int :=
  if n % U64 < I64HI then ((n % U64 : Nat) : Int) else ((n % U64 : Nat) : Int) - (U64 : Int)

/-- Modelled from the spec: `config::rate_limiting_precision`, a positive
compile-time constant whose definition (`config.hpp`) is not in this source
tree.  Its concrete value is immaterial to every claim below; we fix the
customary 10^6. -/
def rate_limiting_precision : Nat := 1000000

/-- Account names are `uint64_t` values; their base-32 encoding is immaterial
here, so we use plain naturals. -/
abbrev AccountName := Nat

/-- The numeric value of the privileged name `"gstio"`; the encoding is
immaterial to the claims. -/
def gstio_name : AccountName := 1

/-- A `{numerator, denominator}` pair of `uint64_t` (header `resource_limits.hpp`). -/
structure Rat64 where
  numerator : Nat
  denominator : Nat
  deriving DecidableEq, Repr

/-- Modelled from the spec: multiplication of a `uint64_t` by a ratio, defined
in `resource_limits_private.hpp` (not in this source tree): `(x * numerator) /
denominator` computed in `uint128_t` space, narrowed back to `uint64_t`.  The
product of two `uint64_t` values is below 2^128, so only the final narrowing
truncates. -/
def mulRatio (x : Nat) (r : Rat64) : Nat :=
  (x * r.numerator / r.denominator) % U64

/-- `elastic_limit_parameters` (header `resource_limits.hpp`). -/
structure elastic_limit_parameters where
  target : Nat
  max : Nat
  periods : Nat
  max_multiplier : Nat
  contract_rate : Rat64
  expand_rate : Rat64
  deriving DecidableEq, Repr

/-- `update_elastic_limit` (`resource_limits.cpp`): apply the contraction
ratio when the observed average exceeds the target, the expansion ratio
otherwise, then clamp to `[params.max, params.max * params.max_multiplier]`.
The upper bound is computed in `uint64_t`, hence the `% U64`. -/
def update_elastic_limit (current_limit : Nat) (average_usage : Nat)
    (params : elastic_limit_parameters) : Nat :=
  let result := if average_usage > params.target
    then mulRatio current_limit params.contract_rate
    else mulRatio current_limit params.expand_rate
  min (max result params.max) (params.max * params.max_multiplier % U64)

/-- Modelled from the spec: the exponential-moving-average accumulator
declared in `resource_limits_private.hpp` (not in this source tree):
`{ last_ordinal : u64, value_ex : u128 fixed point, consumed : u64 }`. -/
structure ExpMovingAverage where
  last_ordinal : Nat
  value_ex : Nat
  consumed : Nat
  deriving DecidableEq, Repr

/-- Modelled from the spec: `add(units, ordinal, window)` on the accumulator.
If the ordinal advanced by delta, decay `value_ex` by `(window - delta) /
window` in fixed point (zero once `delta >= window`), then add
`units * rate_limiting_precision / window`, truncating at 128 bits. -/
def ExpMovingAverage.add (e : ExpMovingAverage) (units ordinal window : Nat) :
    ExpMovingAverage :=
  let decayed :=
    if e.last_ordinal < ordinal then
      if window ≤ ordinal - e.last_ordinal then 0
      else e.value_ex * (window - (ordinal - e.last_ordinal)) % U128 / window
    else e.value_ex
  { last_ordinal := ordinal
    value_ex := (decayed + units * rate_limiting_precision / window) % U128
    consumed := units }

/-- Modelled from the spec: `average() = value_ex / rate_limiting_precision`. -/
def ExpMovingAverage.average (e : ExpMovingAverage) : Nat :=
  e.value_ex / rate_limiting_precision

/-- Modelled from the spec: `integer_divide_ceil` from
`resource_limits_private.hpp` (ceiling division). -/
def integer_divide_ceil (num den : Nat) : Nat :=
  num / den + (if num % den = 0 then 0 else 1)

/-- A row of the `resource_limits_object` table, keyed by `(pending, owner)`. -/
structure ResourceLimitsRow where
  owner : AccountName
  pending : Bool
  ram_bytes : Int
  net_weight : Int
  cpu_weight : Int
  deriving DecidableEq, Repr

/-- A row of the `resource_usage_object` table, keyed by `owner`. -/
structure ResourceUsageRow where
  owner : AccountName
  net_usage : ExpMovingAverage
  cpu_usage : ExpMovingAverage
  ram_usage : Nat
  deriving DecidableEq, Repr

/-- A row of the `resource_gst_object` gas-balance table, keyed by
`(pending, owner)`.  The manager only ever creates and queries rows with
`pending = true`. -/
structure ResourceGstRow where
  owner : AccountName
  pending : Bool
  gst_bytes : Int
  gst_usage : Nat
  deriving DecidableEq, Repr

/-- A row of the `resource_activation_gst_object` table; the manager only
uses the `(pending = true, owner = gstio)` row. -/
structure ResourceActivationRow where
  owner : AccountName
  pending : Bool
  is_activation : Bool
  deriving DecidableEq, Repr

/-- The singleton `resource_limits_state_object`. -/
structure ResourceStateRow where
  average_block_cpu_usage : ExpMovingAverage
  average_block_net_usage : ExpMovingAverage
  pending_cpu_usage : Nat
  pending_net_usage : Nat
  total_cpu_weight : Nat
  total_net_weight : Nat
  total_ram_bytes : Nat
  virtual_cpu_limit : Nat
  virtual_net_limit : Nat
  deriving DecidableEq, Repr

/-- The singleton `resource_limits_config_object`. -/
structure ResourceConfigRow where
  cpu_limit_parameters : elastic_limit_parameters
  net_limit_parameters : elastic_limit_parameters
  account_cpu_usage_average_window : Nat
  account_net_usage_average_window : Nat
  deriving DecidableEq, Repr

/-- The closed error surface of the manager.  Exceptions carry the account
they blame where the C++ message names one. -/
inductive Err where
  | CpuUsageExceeded (account : AccountName)
  | NetUsageExceeded (account : AccountName)
  | BlockResourceExhausted
  | RamUsageOverflow
  | RamUsageUnderflow
  | RamUsageExceeded (account : AccountName)
  | InsufficientGas (account : AccountName)
  | GasNotProvisioned (account : AccountName)
  | StateInconsistent
  | MissingRow
  deriving DecidableEq, Repr

/-- The chainbase store as seen by the manager.  The limits table is kept as
an explicit row list (its pending rows must be iterated at block boundaries);
the other keyed tables are maps from owner.  For `gst` and `activation` the
map holds the `(pending = true, owner)` rows, the only ones the manager ever
touches. -/
structure Store where
  limits : List ResourceLimitsRow
  usage : AccountName → Option ResourceUsageRow
  gst : AccountName → Option ResourceGstRow
  activation : AccountName → Option ResourceActivationRow
  state : ResourceStateRow
  config : ResourceConfigRow

/-- Point update of an owner-keyed table. -/
def updMap {β : Type} (m : AccountName → Option β) (a : AccountName) (v : β) :
    AccountName → Option β :=
  fun b => if b = a then some v else m b

/-- `_db.find` on the limits table by `(pending, owner)`. -/
def findLimitsRow (rows : List ResourceLimitsRow) (p : Bool) (a : AccountName) :
    Option ResourceLimitsRow :=
  rows.find? (fun r => r.pending == p && r.owner == a)

/-- `resource_limits_manager::get_account_limits`: read the pending row if
present, else the committed row; `_db.get` throws when neither exists. -/
def get_account_limits (s : Store) (a : AccountName) : Except Err (Int × Int × Int) :=
  match findLimitsRow s.limits true a with
  | some r => .ok (r.ram_bytes, r.net_weight, r.cpu_weight)
  | none =>
    match findLimitsRow s.limits false a with
    | some r => .ok (r.ram_bytes, r.net_weight, r.cpu_weight)
    | none => .error .MissingRow

/-- `resource_limits_manager::is_activation`: gas metering is on iff the
`(true, gstio)` activation row exists and its flag is set. -/
def is_activation (s : Store) : Bool :=
  match s.activation gstio_name with
  | none => false
  | some row => row.is_activation

/-- `cpu_used_in_window` of `add_transaction_usage`:
`value_ex * window / rate_limiting_precision` in truncating `uint128_t`
arithmetic. -/
def cpu_used_in_window (s : Store) (u : ResourceUsageRow) : Nat :=
  u.cpu_usage.value_ex * s.config.account_cpu_usage_average_window % U128 /
    rate_limiting_precision

/-- `max_user_use_in_window` for cpu:
`(virtual_cpu_limit * window) * cpu_weight / total_cpu_weight` in truncating
`uint128_t` arithmetic. -/
def max_user_cpu_in_window (s : Store) (cpu_weight : Int) : Nat :=
  (s.state.virtual_cpu_limit * s.config.account_cpu_usage_average_window % U128) *
    cpu_weight.toNat % U128 / s.state.total_cpu_weight

/-- `net_used_in_window` of `add_transaction_usage`. -/
def net_used_in_window (s : Store) (u : ResourceUsageRow) : Nat :=
  u.net_usage.value_ex * s.config.account_net_usage_average_window % U128 /
    rate_limiting_precision

/-- `max_user_use_in_window` for net. -/
def max_user_net_in_window (s : Store) (net_weight : Int) : Nat :=
  (s.state.virtual_net_limit * s.config.account_net_usage_average_window % U128) *
    net_weight.toNat % U128 / s.state.total_net_weight

/-- The per-transaction EMA charge of `add_transaction_usage`: add `net` and
`cpu` into the account's accumulators at `time_slot` under the configured
windows. -/
def accumulateUsage (s : Store) (u : ResourceUsageRow) (cpu_usage net_usage time_slot : Nat) :
    ResourceUsageRow :=
  { u with
    net_usage := u.net_usage.add net_usage time_slot
      s.config.account_net_usage_average_window
    cpu_usage := u.cpu_usage.add cpu_usage time_slot
      s.config.account_cpu_usage_average_window }

/-- One iteration of the authorizer loop of
`resource_limits_manager::add_transaction_usage`: fetch the usage row and the
resolved limits, accumulate `cpu`/`net` into the EMAs (persisted regardless of
what the later checks do), then run the stake-weighted cpu and net share
checks (each only when the weight is non-negative and the total weight is
positive). -/
def processAccount (s : Store) (cpu_usage net_usage time_slot : Nat)
    (a : AccountName) : Store × Option Err :=
  match s.usage a with
  | none => (s, some .MissingRow)
  | some u =>
    match get_account_limits s a with
    | .error e => (s, some e)
    | .ok (_, net_weight, cpu_weight) =>
      let u' := accumulateUsage s u cpu_usage net_usage time_slot
      let s1 := { s with usage := updMap s.usage a u' }
      if 0 ≤ cpu_weight ∧ 0 < s.state.total_cpu_weight ∧
          max_user_cpu_in_window s cpu_weight < cpu_used_in_window s u' then
        (s1, some (.CpuUsageExceeded a))
      else if 0 ≤ net_weight ∧ 0 < s.state.total_net_weight ∧
          max_user_net_in_window s net_weight < net_used_in_window s u' then
        (s1, some (.NetUsageExceeded a))
      else (s1, none)

/-- The authorizer loop of `add_transaction_usage`; the first failing account
aborts the loop, with all mutations so far kept (chainbase never rolls back
on throw). -/
def processAccounts (s : Store) (accounts : List AccountName)
    (cpu_usage net_usage time_slot : Nat) : Store × Option Err :=
  match accounts with
  | [] => (s, none)
  | a :: rest =>
    match processAccount s cpu_usage net_usage time_slot a with
    | (s', none) => processAccounts s' rest cpu_usage net_usage time_slot
    | (s', some e) => (s', some e)

/-- `resource_limits_manager::add_transaction_usage`: run the per-account
loop, then add `cpu`/`net` to the block's pending usage (u64 arithmetic) and
check both against `params.max`; the pending increments persist even when
that check throws. -/
def add_transaction_usage (s : Store) (accounts : List AccountName)
    (cpu_usage net_usage time_slot : Nat) : Store × Option Err :=
  match processAccounts s accounts cpu_usage net_usage time_slot with
  | (s1, some e) => (s1, some e)
  | (s1, none) =>
    let pc := (s1.state.pending_cpu_usage + cpu_usage) % U64
    let pn := (s1.state.pending_net_usage + net_usage) % U64
    let s2 := { s1 with state :=
      { s1.state with pending_cpu_usage := pc, pending_net_usage := pn } }
    if s1.config.cpu_limit_parameters.max < pc then (s2, some .BlockResourceExhausted)
    else if s1.config.net_limit_parameters.max < pn then (s2, some .BlockResourceExhausted)
    else (s2, none)

/-- The gas-overlay tail of `resource_limits_manager::add_pending_ram_usage`
(reached only when gas is active and `ram_delta` is nonzero): update the
pending gas row, saturating `gst_usage` at zero through an `int64_t`
reinterpretation of its current value, or create the row with
`gst_bytes = 0`, `gst_usage = max(ram_delta, 0)`. -/
def applyGasDelta (s : Store) (account : AccountName) (ram_delta : Int) : Store :=
  match s.gst account with
  | some row =>
    let new_usage :=
      if toInt64 row.gst_usage + ram_delta < 0 then 0
      else (((row.gst_usage : Int) + ram_delta).toNat) % U64
    { s with gst := updMap s.gst account { row with gst_usage := new_usage } }
  | none =>
    let row : ResourceGstRow :=
      { owner := account, pending := true, gst_bytes := 0
        gst_usage := if ram_delta < 0 then 0 else ram_delta.toNat }
    { s with gst := updMap s.gst account row }

/-- `resource_limits_manager::add_pending_ram_usage`: a zero delta returns at
once; otherwise the usage row's `ram_usage` is updated after explicit
overflow and underflow checks, and, when gas is active, the pending gas row
is updated or lazily created. -/
def add_pending_ram_usage (s : Store) (account : AccountName) (ram_delta : Int) :
    Store × Option Err :=
  if ram_delta = 0 then (s, none)
  else
    match s.usage account with
    | none => (s, some .MissingRow)
    | some u =>
      if ¬ (ram_delta ≤ 0 ∨ ram_delta.toNat ≤ U64MAX - u.ram_usage) then
        (s, some .RamUsageOverflow)
      else if ¬ (0 ≤ ram_delta ∨ (-ram_delta).toNat ≤ u.ram_usage) then
        (s, some .RamUsageUnderflow)
      else
        let u' := { u with ram_usage := ((u.ram_usage : Int) + ram_delta).toNat }
        let s1 := { s with usage := updMap s.usage account u' }
        if is_activation s1 then (applyGasDelta s1 account ram_delta, none)
        else (s1, none)

/-- `resource_limits_manager::verify_account_gst_usage`: require a pending
gas row; when its `gst_bytes` is non-negative, require
`gst_bytes >= gst_usage + 100` (a `uint64_t` comparison) and charge the toll
of 100; a row with negative `gst_bytes` passes untouched. -/
def verify_account_gst_usage (s : Store) (account : AccountName) :
    Store × Option Err :=
  match s.gst account with
  | none => (s, some (.GasNotProvisioned account))
  | some row =>
    if 0 ≤ row.gst_bytes then
      if row.gst_bytes.toNat < (row.gst_usage + 100) % U64 then
        (s, some (.InsufficientGas account))
      else
        let row' := { row with gst_usage := (row.gst_usage + 100) % U64 }
        ({ s with gst := updMap s.gst account row' }, none)
    else (s, none)

/-- `resource_limits_manager::set_gas_limits`: create the `(true, gstio)`
activation row (with `is_activation = true`, whatever the flag) when absent,
else overwrite its flag. -/
def set_gas_limits (s : Store) (flag : Bool) : Store :=
  match s.activation gstio_name with
  | none =>
    let row : ResourceActivationRow :=
      { owner := gstio_name, pending := true, is_activation := true }
    { s with activation := updMap s.activation gstio_name row }
  | some row =>
    let row' := { row with is_activation := flag }
    { s with activation := updMap s.activation gstio_name row' }

/-- Overwrite the three limit fields of the pending row for `a`. -/
def setPendingFields (rows : List ResourceLimitsRow) (a : AccountName)
    (ram_bytes net_weight cpu_weight : Int) : List ResourceLimitsRow :=
  rows.map (fun r =>
    if r.pending && r.owner == a then
      { r with ram_bytes := ram_bytes, net_weight := net_weight, cpu_weight := cpu_weight }
    else r)

/-- `resource_limits_manager::set_account_limits`: find or create the pending
row (copying the committed row on creation; `_db.get` throws when the
committed row is absent), report whether the new `ram_bytes` is a decrease
(negative old value counting as infinity), and overwrite the three fields.
The row list order is immaterial: lookups are keyed and the commit loop
below draws pending rows in its own order. -/
def set_account_limits (s : Store) (account : AccountName)
    (ram_bytes net_weight cpu_weight : Int) : Except Err (Store × Bool) :=
  match findLimitsRow s.limits true account with
  | some row =>
    let decreased := 0 ≤ ram_bytes ∧ (row.ram_bytes < 0 ∨ ram_bytes < row.ram_bytes)
    .ok ({ s with limits := setPendingFields s.limits account ram_bytes net_weight cpu_weight },
      decide decreased)
  | none =>
    match findLimitsRow s.limits false account with
    | none => .error .MissingRow
    | some c =>
      let decreased := 0 ≤ ram_bytes ∧ (c.ram_bytes < 0 ∨ ram_bytes < c.ram_bytes)
      .ok ({ s with limits :=
        { owner := account, pending := true, ram_bytes := ram_bytes
          net_weight := net_weight, cpu_weight := cpu_weight } :: s.limits },
        decide decreased)

/-- The `update_state_and_value` helper of
`resource_limits_manager::process_account_limit_updates`: revert a positive
old contribution from the `uint64_t` total (underflow throws
`rate_limiting_state_inconsistent`), apply a positive pending contribution
(overflow likewise throws), and write the pending value into the committed
field. -/
def update_state_and_value (total : Nat) (value pending_value : Int) :
    Except Err (Nat × Int) :=
  if 0 < value then
    if total < value.toNat then .error .StateInconsistent
    else
      if 0 < pending_value then
        if U64MAX - (total - value.toNat) < pending_value.toNat then
          .error .StateInconsistent
        else .ok (total - value.toNat + pending_value.toNat, pending_value)
      else .ok (total - value.toNat, pending_value)
  else
    if 0 < pending_value then
      if U64MAX - total < pending_value.toNat then .error .StateInconsistent
      else .ok (total + pending_value.toNat, pending_value)
    else .ok (total, pending_value)

/-- Overwrite the committed row for `pr.owner` with `pr`'s values (the
`_db.modify(actual_entry, ...)` of the commit loop); other rows unchanged. -/
def stepFun (pr : ResourceLimitsRow) (r : ResourceLimitsRow) : ResourceLimitsRow :=
  if !r.pending && r.owner == pr.owner then
    { r with
      ram_bytes := pr.ram_bytes
      net_weight := pr.net_weight
      cpu_weight := pr.cpu_weight }
  else r

/-- The row-list effect of committing one pending row `pr`: drop the pending
row and overwrite the committed row's fields with `pr`'s. -/
def stepRows (rows : List ResourceLimitsRow) (pr : ResourceLimitsRow) :
    List ResourceLimitsRow :=
  (rows.filter (fun r => !(r.pending && r.owner == pr.owner))).map (stepFun pr)

/-- The commit loop of `process_account_limit_updates`, one pending row at a
time: fetch the committed row (`_db.get` throws when absent), update the
three totals through `update_state_and_value` in the source's order (ram,
cpu, net), overwrite the committed row and delete the pending row. -/
def processPending (plist : List ResourceLimitsRow) (s : Store) : Except Err Store :=
  match plist with
  | [] => .ok s
  | pr :: rest =>
    match findLimitsRow s.limits false pr.owner with
    | none => .error .MissingRow
    | some c =>
      match update_state_and_value s.state.total_ram_bytes c.ram_bytes pr.ram_bytes with
      | .error e => .error e
      | .ok (t_ram, _) =>
        match update_state_and_value s.state.total_cpu_weight c.cpu_weight pr.cpu_weight with
        | .error e => .error e
        | .ok (t_cpu, _) =>
          match update_state_and_value s.state.total_net_weight c.net_weight pr.net_weight with
          | .error e => .error e
          | .ok (t_net, _) =>
            processPending rest
              { s with
                state := { s.state with
                  total_ram_bytes := t_ram
                  total_cpu_weight := t_cpu
                  total_net_weight := t_net }
                limits := stepRows s.limits pr }

/-- `resource_limits_manager::process_account_limit_updates`: commit every
pending limits row.  The chainbase `by_owner` index hands the loop the
pending rows in key order; the model draws them in the table's list order,
which coincides with the index view for any store that (like every store the
node builds) keeps its row list key-sorted -- none of the commit's claimed
postconditions depend on that order. -/
def process_account_limit_updates (s : Store) : Except Err Store :=
  processPending (s.limits.filter (fun r => r.pending)) s

/-- Fold a list of `set_account_limits` calls, stopping at the first throw. -/
def apply_set_calls (s : Store) :
    List (AccountName × Int × Int × Int) → Except Err Store
  | [] => .ok s
  | (a, rb, nw, cw) :: rest =>
    match set_account_limits s a rb nw cw with
    | .error e => .error e
    | .ok (s', _) => apply_set_calls s' rest

/-- The pending rows of the limits table. -/
def pendingRows (rows : List ResourceLimitsRow) : List ResourceLimitsRow :=
  rows.filter (fun r => r.pending)

/-- The committed rows of the limits table. -/
def committedRows (rows : List ResourceLimitsRow) : List ResourceLimitsRow :=
  rows.filter (fun r => !r.pending)

/-- Owners of the pending rows. -/
def pendingOwners (rows : List ResourceLimitsRow) : List AccountName :=
  (pendingRows rows).map (fun r => r.owner)

/-- Owners of the committed rows. -/
def committedOwners (rows : List ResourceLimitsRow) : List AccountName :=
  (committedRows rows).map (fun r => r.owner)

/-- Sum of a projection over the committed rows. -/
def rowSum (f : ResourceLimitsRow → Nat) (rows : List ResourceLimitsRow) : Nat :=
  ((committedRows rows).map f).sum

/-- Sum of the non-negative committed `ram_bytes` (negative sentinel values
contribute `Int.toNat = 0`, matching `update_state_and_value`). -/
def ramSum (rows : List ResourceLimitsRow) : Nat :=
  rowSum (fun r => r.ram_bytes.toNat) rows

/-- Sum of the non-negative committed `cpu_weight`. -/
def cpuSum (rows : List ResourceLimitsRow) : Nat :=
  rowSum (fun r => r.cpu_weight.toNat) rows

/-- Sum of the non-negative committed `net_weight`. -/
def netSum (rows : List ResourceLimitsRow) : Nat :=
  rowSum (fun r => r.net_weight.toNat) rows

/-- The spec's totals invariant: each global total equals the sum of the
non-negative committed values across accounts. -/
def totalsConsistent (s : Store) : Prop :=
  s.state.total_ram_bytes = ramSum s.limits ∧
  s.state.total_cpu_weight = cpuSum s.limits ∧
  s.state.total_net_weight = netSum s.limits

/-- Modelled from the spec: `downgrade_cast<int64_t>` from
`resource_limits_private.hpp` (not in this source tree): the narrowing is a
fatal invariant violation when the value does not fit. -/
def downgrade_cast_i64 (v : Nat) : Except Err Int :=
  if I64HI ≤ v then .error .StateInconsistent else .ok (v : Int)

/-- `resource_limits_manager::get_account_cpu_limit_ex`: `{-1,-1,-1}` for an
unlimited account or a zero total weight, otherwise the 128-bit fair-share
computation with ceiling division for the used amount. -/
def get_account_cpu_limit_ex (s : Store) (a : AccountName) (elastic : Bool) :
    Except Err (Int × Int × Int) :=
  match s.usage a with
  | none => .error .MissingRow
  | some u =>
    match get_account_limits s a with
    | .error e => .error e
    | .ok (_, _, cpu_weight) =>
      if cpu_weight < 0 ∨ s.state.total_cpu_weight = 0 then .ok (-1, -1, -1)
      else do
        let window_size := s.config.account_cpu_usage_average_window
        let capacity :=
          (if elastic then s.state.virtual_cpu_limit else s.config.cpu_limit_parameters.max)
            * window_size % U128
        let max_use := capacity * cpu_weight.toNat % U128 / s.state.total_cpu_weight
        let used := integer_divide_ceil (u.cpu_usage.value_ex * window_size % U128)
          rate_limiting_precision
        let available ← if max_use ≤ used then pure 0
          else downgrade_cast_i64 (max_use - used)
        let used_i ← downgrade_cast_i64 used
        let max_i ← downgrade_cast_i64 max_use
        .ok (used_i, available, max_i)

/-- `resource_limits_manager::get_account_net_limit_ex`, symmetric to the cpu
accessor. -/
def get_account_net_limit_ex (s : Store) (a : AccountName) (elastic : Bool) :
    Except Err (Int × Int × Int) :=
  match s.usage a with
  | none => .error .MissingRow
  | some u =>
    match get_account_limits s a with
    | .error e => .error e
    | .ok (_, net_weight, _) =>
      if net_weight < 0 ∨ s.state.total_net_weight = 0 then .ok (-1, -1, -1)
      else do
        let window_size := s.config.account_net_usage_average_window
        let capacity :=
          (if elastic then s.state.virtual_net_limit else s.config.net_limit_parameters.max)
            * window_size % U128
        let max_use := capacity * net_weight.toNat % U128 / s.state.total_net_weight
        let used := integer_divide_ceil (u.net_usage.value_ex * window_size % U128)
          rate_limiting_precision
        let available ← if max_use ≤ used then pure 0
          else downgrade_cast_i64 (max_use - used)
        let used_i ← downgrade_cast_i64 used
        let max_i ← downgrade_cast_i64 max_use
        .ok (used_i, available, max_i)

/-! ## Snapshot codec

The snapshot writer/reader machinery (`snapshot.hpp`, `index_set`,
chainbase's `walk`) is not in this source tree; the codec below is modelled
from the spec: one section per table, in the fixed `resource_index_set`
order, each section holding the table's rows in its natural (key) ordering,
and a reader that refills a fresh store section by section.  For this model
a store is a record of row lists, a section is an ordered row list, and
byte-identity of two snapshots is equality of their section lists (row
serialization being injective). -/

/-- A boolean comparison `a ≤ b` on rows keyed by `(pending, owner)`:
committed (`pending = false`) rows order before pending ones, then by owner.
Tables keyed by owner alone use a constantly-`false` pending key. -/
def keyLe {α : Type} (kp : α → Bool) (ko : α → Nat) (a b : α) : Bool :=
  (!kp a && kp b) || (kp a == kp b && ko a ≤ ko b)

/-- Insert into an already key-ordered list. -/
def insertSorted {α : Type} (le : α → α → Bool) (x : α) : List α → List α
  | [] => [x]
  | y :: ys => if le x y then x :: y :: ys else y :: insertSorted le x ys

/-- Order a table's rows by key (insertion sort). -/
def sortRows {α : Type} (le : α → α → Bool) (l : List α) : List α :=
  l.foldr (insertSorted le) []

/-- The list is in key order (each adjacent pair related by `le`). -/
def isChain {α : Type} (le : α → α → Bool) : List α → Bool
  | [] => true
  | [_] => true
  | a :: b :: rest => le a b && isChain le (b :: rest)

/-- The snapshot store: each of the six `resource_index_set` tables,
extensionally as a row list. -/
structure SnapStore where
  limitsRows : List ResourceLimitsRow
  usageRows : List ResourceUsageRow
  gstRows : List ResourceGstRow
  activationRows : List ResourceActivationRow
  stateRows : List ResourceStateRow
  configRows : List ResourceConfigRow
  deriving DecidableEq, Repr

/-- One snapshot section: the rows of a single table. -/
inductive SnapSection where
  | limitsSec (rows : List ResourceLimitsRow)
  | usageSec (rows : List ResourceUsageRow)
  | gstSec (rows : List ResourceGstRow)
  | activationSec (rows : List ResourceActivationRow)
  | stateSec (rows : List ResourceStateRow)
  | configSec (rows : List ResourceConfigRow)
  deriving DecidableEq, Repr

/-- Which table a section belongs to, numbered in `resource_index_set`
declaration order. -/
def SnapSection.tag : SnapSection → Nat
  | .limitsSec _ => 0
  | .usageSec _ => 1
  | .gstSec _ => 2
  | .activationSec _ => 3
  | .stateSec _ => 4
  | .configSec _ => 5

/-- Key order for the limits table: `(pending, owner)`. -/
def limitsLe : ResourceLimitsRow → ResourceLimitsRow → Bool :=
  keyLe (fun r => r.pending) (fun r => r.owner)

/-- Key order for the usage table: `owner`. -/
def usageLe : ResourceUsageRow → ResourceUsageRow → Bool :=
  keyLe (fun _ => false) (fun r => r.owner)

/-- Key order for the gas-balance table: `(pending, owner)`. -/
def gstLe : ResourceGstRow → ResourceGstRow → Bool :=
  keyLe (fun r => r.pending) (fun r => r.owner)

/-- Key order for the activation table: `(pending, owner)`. -/
def activationLe : ResourceActivationRow → ResourceActivationRow → Bool :=
  keyLe (fun r => r.pending) (fun r => r.owner)

/-- `resource_limits_manager::add_to_snapshot`, modelled from the spec: walk
the six tables in `resource_index_set` order, writing one section each with
the rows in key order (the singleton state and config tables are emitted
as stored). -/
def add_to_snapshot (st : SnapStore) : List SnapSection :=
  [ .limitsSec (sortRows limitsLe st.limitsRows)
  , .usageSec (sortRows usageLe st.usageRows)
  , .gstSec (sortRows gstLe st.gstRows)
  , .activationSec (sortRows activationLe st.activationRows)
  , .stateSec st.stateRows
  , .configSec st.configRows ]

/-- `resource_limits_manager::read_from_snapshot`, modelled from the spec:
read the six sections in the same fixed order into a fresh store, creating
the rows in the order read; any other section shape fails. -/
def read_from_snapshot : List SnapSection → Option SnapStore
  | [ .limitsSec l, .usageSec u, .gstSec g, .activationSec a, .stateSec st, .configSec c ] =>
    some { limitsRows := l, usageRows := u, gstRows := g, activationRows := a
           stateRows := st, configRows := c }
  | _ => none

/-! ## Concrete stores used to instantiate the theorems -/

/-- A zeroed accumulator. -/
def zeroEma : ExpMovingAverage := { last_ordinal := 0, value_ex := 0, consumed := 0 }

/-- Innocuous elastic parameters for concrete stores. -/
def baseParams : elastic_limit_parameters :=
  { target := 0, max := 1000, periods := 1, max_multiplier := 1000
    contract_rate := { numerator := 99, denominator := 100 }
    expand_rate := { numerator := 1000, denominator := 999 } }

/-- A zeroed global state row. -/
def baseState : ResourceStateRow :=
  { average_block_cpu_usage := zeroEma, average_block_net_usage := zeroEma
    pending_cpu_usage := 0, pending_net_usage := 0
    total_cpu_weight := 0, total_net_weight := 0, total_ram_bytes := 0
    virtual_cpu_limit := 0, virtual_net_limit := 0 }

/-- A config row with one-slot averaging windows (keeps arithmetic small). -/
def baseConfig : ResourceConfigRow :=
  { cpu_limit_parameters := baseParams, net_limit_parameters := baseParams
    account_cpu_usage_average_window := 1, account_net_usage_average_window := 1 }

/-- An empty store. -/
def baseStore : Store :=
  { limits := [], usage := fun _ => none, gst := fun _ => none
    activation := fun _ => none, state := baseState, config := baseConfig }

/-- The `(true, gstio)` activation row with the flag set. -/
def gasOnRow : ResourceActivationRow :=
  { owner := gstio_name, pending := true, is_activation := true }

/-- A store in which gas metering is active. -/
def gasOnStore : Store :=
  { baseStore with activation := updMap baseStore.activation gstio_name gasOnRow }

/-- Elastic parameters with `max_multiplier = 0`: the clamp interval
`[max, max * max_multiplier]` collapses below `max`. -/
def c2params : elastic_limit_parameters :=
  { target := 0, max := 1, periods := 1, max_multiplier := 0
    contract_rate := { numerator := 1, denominator := 1 }
    expand_rate := { numerator := 1, denominator := 1 } }

/-- Well-formed elastic parameters (`max * max_multiplier` does not wrap). -/
def w2params : elastic_limit_parameters :=
  { target := 0, max := 10, periods := 1, max_multiplier := 2
    contract_rate := { numerator := 1, denominator := 2 }
    expand_rate := { numerator := 3, denominator := 2 } }

/-- A gas row with the unlimited sentinel `gst_bytes = -1`. -/
def c6row : ResourceGstRow :=
  { owner := 7, pending := true, gst_bytes := -1, gst_usage := 0 }

/-- A store holding only the unlimited gas row for account 7. -/
def c6store : Store := { baseStore with gst := updMap baseStore.gst 7 c6row }

/-- A funded gas row. -/
def w6row : ResourceGstRow :=
  { owner := 7, pending := true, gst_bytes := 1000, gst_usage := 0 }

/-- A store holding only the funded gas row for account 7. -/
def w6store : Store := { baseStore with gst := updMap baseStore.gst 7 w6row }

/-- A usage row for account 7 with zeroed accumulators. -/
def w4usage : ResourceUsageRow :=
  { owner := 7, net_usage := zeroEma, cpu_usage := zeroEma, ram_usage := 100 }

/-- A store holding only the usage row for account 7. -/
def w4store : Store := { baseStore with usage := updMap baseStore.usage 7 w4usage }

/-- Apply a sequence of `add_pending_ram_usage` calls for one account,
stopping at the first throw. -/
def applyDeltas (a : AccountName) : Store → List Int → Store × Option Err
  | s, [] => (s, none)
  | s, d :: ds =>
    match add_pending_ram_usage s a d with
    | (s', none) => applyDeltas a s' ds
    | (s', some e) => (s', some e)

/-- The non-negative saturation of a running sum: each step moves to
`max 0 (acc + d)`. -/
def satFold : Nat → List Int → Nat
  | g, [] => g
  | g, d :: ds => satFold (((g : Int) + d).toNat) ds

/-- A usage row for account 7 with nothing consumed yet. -/
def c5usage : ResourceUsageRow :=
  { owner := 7, net_usage := zeroEma, cpu_usage := zeroEma, ram_usage := 0 }

/-- Gas active, account 7 with a fresh usage row and no gas row. -/
def c5store : Store := { gasOnStore with usage := updMap gasOnStore.usage 7 c5usage }

/-- The delta sequence whose saturated prefix sums cross 2^63. -/
def c5deltas : List Int := [9223372036854775807, 9223372036854775807, -1]

/-- A small delta sequence that dips below zero once. -/
def w5deltas : List Int := [5, -10, 3]

/-- A usage row for account 7 with enough `ram_usage` headroom that small
negative deltas pass the underflow check. -/
def w5usage : ResourceUsageRow :=
  { owner := 7, net_usage := zeroEma, cpu_usage := zeroEma, ram_usage := 1000 }

/-- Gas active, account 7 with ram headroom and no gas row. -/
def w5store : Store := { gasOnStore with usage := updMap gasOnStore.usage 7 w5usage }

/-- A committed limits row giving account 0 zero cpu stake. -/
def c3limits : ResourceLimitsRow :=
  { owner := 0, pending := false, ram_bytes := -1, net_weight := -1, cpu_weight := 0 }

/-- A fresh usage row for account 0. -/
def c3usage : ResourceUsageRow :=
  { owner := 0, net_usage := zeroEma, cpu_usage := zeroEma, ram_usage := 0 }

/-- A store where account 0 has zero cpu stake out of a total weight 1, so
any cpu usage trips the fair-share check. -/
def c3store : Store :=
  { baseStore with
    limits := [c3limits]
    usage := updMap baseStore.usage 0 c3usage
    state := { baseState with total_cpu_weight := 1 } }

/-- A committed limits row marking account 0 unlimited on every axis. -/
def w3limits : ResourceLimitsRow :=
  { owner := 0, pending := false, ram_bytes := -1, net_weight := -1, cpu_weight := -1 }

/-- A store in which account 0 is unlimited, so the authorizer loop passes. -/
def w3store : Store :=
  { baseStore with limits := [w3limits], usage := updMap baseStore.usage 0 c3usage }

/-- A committed limits row for owner 5. -/
def w9limA : ResourceLimitsRow :=
  { owner := 5, pending := false, ram_bytes := 10, net_weight := 11, cpu_weight := 12 }

/-- A committed limits row for owner 3. -/
def w9limB : ResourceLimitsRow :=
  { owner := 3, pending := false, ram_bytes := 20, net_weight := 21, cpu_weight := 22 }

/-- A snapshot store whose limits rows are out of key order. -/
def w9store : SnapStore :=
  { limitsRows := [w9limA, w9limB]
    usageRows := [{ owner := 3, net_usage := zeroEma, cpu_usage := zeroEma, ram_usage := 4 }]
    gstRows := [], activationRows := [], stateRows := [baseState], configRows := [baseConfig] }

/-- The store produced by restoring `w9store`'s snapshot: each table in key
order. -/
def w9sorted : SnapStore :=
  { limitsRows := [w9limB, w9limA]
    usageRows := [{ owner := 3, net_usage := zeroEma, cpu_usage := zeroEma, ram_usage := 4 }]
    gstRows := [], activationRows := [], stateRows := [baseState], configRows := [baseConfig] }

/-- A committed limits row for account 1 with weights `(2, 3, 4)`. -/
def w7committed : ResourceLimitsRow :=
  { owner := 1, pending := false, ram_bytes := 2, net_weight := 3, cpu_weight := 4 }

/-- A consistent store: one committed row, totals matching it, no pending. -/
def w7s0 : Store :=
  { baseStore with
    limits := [w7committed]
    state := { baseState with
      total_ram_bytes := 2, total_cpu_weight := 4, total_net_weight := 3 } }

/-- The governance calls for the commit witness. -/
def w7calls : List (AccountName × Int × Int × Int) := [(1, 5, 6, 7)]

/-- `w7s0` after `set_account_limits 1 5 6 7`: a pending row staged. -/
def w7s1 : Store :=
  { w7s0 with limits :=
    [{ owner := 1, pending := true, ram_bytes := 5, net_weight := 6, cpu_weight := 7 },
     w7committed] }

/-- `w7s1` after `process_account_limit_updates`: the pending row collapsed
into the committed row, totals updated. -/
def w7s2 : Store :=
  { baseStore with
    limits := [{ owner := 1, pending := false, ram_bytes := 5, net_weight := 6, cpu_weight := 7 }]
    state := { baseState with
      total_ram_bytes := 5, total_cpu_weight := 7, total_net_weight := 6 } }

/-! ## Generic facts about the key-ordered insertion used by the codec -/

theorem keyLe_total {α : Type} (kp : α → Bool) (ko : α → Nat) (a b : α) :
    keyLe kp ko a b = true ∨ keyLe kp ko b a = true := by
  rcases Nat.le_total (ko a) (ko b) with h | h <;>
    cases ha : kp a <;> cases hb : kp b <;> simp [keyLe, ha, hb, h]

theorem isChain_cons {α : Type} (le : α → α → Bool) (a : α) (l : List α) :
    isChain le (a :: l) = true ↔
      (∀ b ∈ l.head?, le a b = true) ∧ isChain le l = true := by
  cases l with
  | nil => simp [isChain]
  | cons b t => simp [isChain]

theorem isChain_insertSorted {α : Type} (le : α → α → Bool)
    (htot : ∀ a b, le a b = true ∨ le b a = true) (x : α) :
    ∀ l : List α, isChain le l = true → isChain le (insertSorted le x l) = true := by
  intro l
  induction l with
  | nil => intro _; simp [insertSorted, isChain]
  | cons y ys ih =>
    intro hch
    rw [isChain_cons] at hch
    by_cases hxy : le x y = true
    · simp only [insertSorted, hxy, if_pos]
      rw [isChain_cons]
      refine ⟨?_, (isChain_cons le y ys).mpr hch⟩
      intro b hb
      simp only [List.head?_cons, Option.mem_def, Option.some.injEq] at hb
      exact hb ▸ hxy
    · simp only [insertSorted, hxy, if_neg, Bool.not_eq_true]
      rw [isChain_cons]
      refine ⟨?_, ih hch.2⟩
      intro b hb
      cases ys with
      | nil =>
        simp [insertSorted] at hb
        rcases htot x y with h | h
        · exact absurd h hxy
        · exact hb ▸ h
      | cons z zs =>
        simp only [insertSorted] at hb
        by_cases hxz : le x z = true
        · simp only [hxz, if_pos, List.head?_cons, Option.mem_def,
            Option.some.injEq] at hb
          rcases htot x y with h | h
          · exact absurd h hxy
          · exact hb ▸ h
        · simp only [hxz, if_neg, Bool.not_eq_true, List.head?_cons,
            Option.mem_def, Option.some.injEq] at hb
          exact hb ▸ hch.1 z (by simp)

theorem isChain_sortRows {α : Type} (le : α → α → Bool)
    (htot : ∀ a b, le a b = true ∨ le b a = true) (l : List α) :
    isChain le (sortRows le l) = true := by
  induction l with
  | nil => simp [sortRows, isChain]
  | cons y ys ih => exact isChain_insertSorted le htot y (sortRows le ys) ih

theorem sortRows_of_isChain {α : Type} (le : α → α → Bool) :
    ∀ l : List α, isChain le l = true → sortRows le l = l := by
  intro l
  induction l with
  | nil => intro _; rfl
  | cons y ys ih =>
    intro hch
    rw [isChain_cons] at hch
    show insertSorted le y (sortRows le ys) = y :: ys
    rw [ih hch.2]
    cases ys with
    | nil => rfl
    | cons z zs =>
      have : le y z = true := hch.1 z (by simp)
      simp [insertSorted, this]

theorem sortRows_idem {α : Type} (le : α → α → Bool)
    (htot : ∀ a b, le a b = true ∨ le b a = true) (l : List α) :
    sortRows le (sortRows le l) = sortRows le l :=
  sortRows_of_isChain le _ (isChain_sortRows le htot l)

theorem insertSorted_perm {α : Type} (le : α → α → Bool) (x : α) :
    ∀ l : List α, (insertSorted le x l).Perm (x :: l) := by
  intro l
  induction l with
  | nil => simp [insertSorted]
  | cons y ys ih =>
    by_cases hxy : le x y = true
    · simp [insertSorted, hxy]
    · simp only [insertSorted, hxy, if_neg, Bool.not_eq_true]
      exact (ih.cons y).trans (List.Perm.swap x y ys)

theorem sortRows_perm {α : Type} (le : α → α → Bool) (l : List α) :
    (sortRows le l).Perm l := by
  induction l with
  | nil => rfl
  | cons y ys ih =>
    exact (insertSorted_perm le y (sortRows le ys)).trans (ih.cons y)

/-! ## Claim theorems -/

/-- C10: for every account and every store state, `add_pending_ram_usage`
with a zero delta returns successfully and leaves the entire store unchanged:
no overflow checks run, the usage row is untouched, and even with gas active
no pending gas row is created or modified. -/
theorem C10_zero_ram_delta (s : Store) (a : AccountName) :
    add_pending_ram_usage s a 0 = (s, none) := by
  simp [add_pending_ram_usage]

/-- C2 (counterexample): with `max_multiplier = 0` (and identity rates) the
result of `update_elastic_limit` lands outside
`[params.max, params.max * params.max_multiplier]`, refuting the claim that
it always lies in that interval and never drops below `params.max`. -/
theorem C2_counterexample :
    ¬ (c2params.max ≤ update_elastic_limit 5 0 c2params ∧
      update_elastic_limit 5 0 c2params ≤ c2params.max * c2params.max_multiplier) := by
  decide

/-- C2 (amended): whenever `params.max * params.max_multiplier` (computed in
`uint64_t`) is at least `params.max` -- in particular whenever the clamp
interval is non-empty -- `update_elastic_limit` applies the contraction
ratio when the average exceeds the target and the expansion ratio otherwise,
and clamps the result into `[params.max, params.max * params.max_multiplier]`,
so the virtual limit never drops below the nominal block max. -/
theorem C2_elastic_clamp (current_limit average_usage : Nat)
    (p : elastic_limit_parameters) (h : p.max ≤ p.max * p.max_multiplier % U64) :
    p.max ≤ update_elastic_limit current_limit average_usage p ∧
    update_elastic_limit current_limit average_usage p ≤
      p.max * p.max_multiplier % U64 ∧
    update_elastic_limit current_limit average_usage p =
      min (max (if p.target < average_usage then mulRatio current_limit p.contract_rate
        else mulRatio current_limit p.expand_rate) p.max)
        (p.max * p.max_multiplier % U64) := by
  unfold update_elastic_limit
  refine ⟨?_, ?_, rfl⟩
  · split <;> exact le_min (le_max_right _ _) h
  · split <;> exact min_le_right _ _

/-- C2 (witness): the amended clamp at concrete well-formed parameters. -/
theorem C2_witness :
    w2params.max ≤ w2params.max * w2params.max_multiplier % U64 ∧
    w2params.max ≤ update_elastic_limit 10 0 w2params :=
  ⟨by decide, (C2_elastic_clamp 10 0 w2params (by decide)).1⟩

/-- C8 (counterexample): calling `set_gas_limits false` on a store with no
activation row creates the row with `is_activation = true`, not `false` as
the claim requires for every flag. -/
theorem C8_counterexample :
    ((set_gas_limits baseStore false).activation gstio_name).map
      (fun r => r.is_activation) = some true ∧ some true ≠ some false := by
  exact ⟨rfl, by decide⟩

/-- C8 (amended): after `set_gas_limits flag` the `(true, gstio)` activation
row always exists; when the row already existed its flag becomes `flag`, but
when the call creates the row the flag is set to `true` regardless of the
argument. -/
theorem C8_set_gas_limits (s : Store) (flag : Bool) :
    (s.activation gstio_name = none →
      (set_gas_limits s flag).activation gstio_name =
        some { owner := gstio_name, pending := true, is_activation := true }) ∧
    (∀ row, s.activation gstio_name = some row →
      (set_gas_limits s flag).activation gstio_name =
        some { row with is_activation := flag }) := by
  constructor
  · intro h; simp [set_gas_limits, h, updMap]
  · intro row h; simp [set_gas_limits, h, updMap]

/-- C8 (witness): the amended upsert at a store whose activation row exists. -/
theorem C8_witness :
    gasOnStore.activation gstio_name = some gasOnRow ∧
    (set_gas_limits gasOnStore false).activation gstio_name =
      some { gasOnRow with is_activation := false } :=
  ⟨rfl, (C8_set_gas_limits gasOnStore false).2 gasOnRow rfl⟩

/-- The gas-overlay update never touches the usage table. -/
theorem applyGasDelta_usage (s : Store) (a : AccountName) (d : Int) :
    (applyGasDelta s a d).usage = s.usage := by
  unfold applyGasDelta
  cases s.gst a <;> rfl

/-- C4: with the account's usage row present, `add_pending_ram_usage` fails
with `RamUsageOverflow` exactly when a positive delta would push `ram_usage`
past `UINT64_MAX` and with `RamUsageUnderflow` exactly when a negative delta
would push it below zero; on failure the store (in particular `ram_usage`) is
untouched, and on success `ram_usage` becomes exactly the old value plus the
delta. -/
theorem C4_ram_delta (s : Store) (a : AccountName) (d : Int)
    (u : ResourceUsageRow) (hu : s.usage a = some u) (hbound : u.ram_usage ≤ U64MAX) :
    ((add_pending_ram_usage s a d).2 = some .RamUsageOverflow ↔
      0 < d ∧ (U64MAX : Int) < u.ram_usage + d) ∧
    ((add_pending_ram_usage s a d).2 = some .RamUsageUnderflow ↔
      d < 0 ∧ (u.ram_usage : Int) < -d) ∧
    ((add_pending_ram_usage s a d).2 ≠ none → (add_pending_ram_usage s a d).1 = s) ∧
    ((add_pending_ram_usage s a d).2 = none →
      ((add_pending_ram_usage s a d).1.usage a).map (fun v => (v.ram_usage : Int)) =
        some (u.ram_usage + d)) := by
  by_cases h0 : d = 0
  · subst h0
    simp only [add_pending_ram_usage, if_pos rfl]
    refine ⟨by simp, by simp, by simp, ?_⟩
    intro _
    simp [hu]
  · by_cases hov : d ≤ 0 ∨ d.toNat ≤ U64MAX - u.ram_usage
    · by_cases hun : 0 ≤ d ∨ (-d).toNat ≤ u.ram_usage
      · have hres : add_pending_ram_usage s a d =
            (let u' := { u with ram_usage := ((u.ram_usage : Int) + d).toNat }
             let s1 := { s with usage := updMap s.usage a u' }
             if is_activation s1 then (applyGasDelta s1 a d, none) else (s1, none)) := by
          simp only [add_pending_ram_usage, if_neg h0, hu, not_true, not_false_iff,
            if_neg (not_not_intro hov), if_neg (not_not_intro hun)]
        rw [hres]
        dsimp only
        refine ⟨by split <;> (simp ; omega), by split <;> (simp ; omega), ?_, ?_⟩
        · split <;> simp
        · intro _
          split
          · rw [applyGasDelta_usage]
            simp [updMap]
            omega
          · simp [updMap]
            omega
      · have hres : add_pending_ram_usage s a d = (s, some .RamUsageUnderflow) := by
          simp only [add_pending_ram_usage, if_neg h0, hu,
            if_neg (not_not_intro hov), if_pos (by exact hun)]
        rw [hres]
        refine ⟨by simp ; omega, by simp ; omega, by simp, by simp⟩
    · have hres : add_pending_ram_usage s a d = (s, some .RamUsageOverflow) := by
        simp only [add_pending_ram_usage, if_neg h0, hu, if_pos (by exact hov)]
      rw [hres]
      refine ⟨by simp ; omega, by simp ; omega, by simp, by simp⟩

/-- C4 (witness): both failure modes and an exact success at account 7. -/
theorem C4_witness :
    w4store.usage 7 = some w4usage ∧ w4usage.ram_usage ≤ U64MAX ∧
    ((add_pending_ram_usage w4store 7 (-200)).2 = some .RamUsageUnderflow) ∧
    ((add_pending_ram_usage w4store 7 (-200)).1 = w4store) ∧
    (((add_pending_ram_usage w4store 7 25).1.usage 7).map
      (fun v => (v.ram_usage : Int)) = some 125) := by
  have h := C4_ram_delta w4store 7 (-200) w4usage rfl (by decide)
  have h' := C4_ram_delta w4store 7 25 w4usage rfl (by decide)
  refine ⟨rfl, by decide, ?_, ?_, ?_⟩
  · exact h.2.1.mpr (by decide)
  · exact h.2.2.1 (by rw [h.2.1.mpr (by decide)] ; simp)
  · have := h'.2.2.2 (by rfl)
    simpa using this

/-- C6 (counterexample): for a gas row with the sentinel `gst_bytes = -1`
the call succeeds and leaves the row untouched even though
`gst_bytes < gst_usage + 100`, refuting the claim that every existing row
with insufficient balance fails `InsufficientGas` and every success charges
the toll. -/
theorem C6_counterexample :
    c6store.gst 7 = some c6row ∧
    ((c6row.gst_bytes : Int) < (c6row.gst_usage : Int) + 100) ∧
    verify_account_gst_usage c6store 7 = (c6store, none) := by
  exact ⟨rfl, by decide, rfl⟩

/-- C6 (amended): `verify_account_gst_usage` fails `GasNotProvisioned` iff
the account has no pending gas row.  When the row exists with
`gst_bytes >= 0` (and the toll does not wrap `uint64_t`), the call fails
`InsufficientGas` unless `gst_bytes >= gst_usage + 100`, and on success
increments `gst_usage` by exactly 100 leaving `gst_bytes` unchanged; when
`gst_bytes < 0` the call succeeds without modifying anything. -/
theorem C6_verify_gst (s : Store) (a : AccountName) :
    ((verify_account_gst_usage s a).2 = some (.GasNotProvisioned a) ↔ s.gst a = none) ∧
    (∀ row, s.gst a = some row → 0 ≤ row.gst_bytes → row.gst_usage + 100 < U64 →
      (((verify_account_gst_usage s a).2 = some (.InsufficientGas a)) ↔
        (row.gst_bytes : Int) < (row.gst_usage : Int) + 100) ∧
      ((verify_account_gst_usage s a).2 = none →
        (verify_account_gst_usage s a).1.gst a =
          some { row with gst_usage := row.gst_usage + 100 })) ∧
    (∀ row, s.gst a = some row → row.gst_bytes < 0 →
      verify_account_gst_usage s a = (s, none)) := by
  refine ⟨?_, ?_, ?_⟩
  · rcases hg : s.gst a with _ | row
    · simp [verify_account_gst_usage, hg]
    · simp only [verify_account_gst_usage, hg]
      split
      · split <;> simp
      · simp
  · intro row hg hb hw
    have hmod : (row.gst_usage + 100) % U64 = row.gst_usage + 100 := Nat.mod_eq_of_lt hw
    simp only [verify_account_gst_usage, hg, if_pos hb, hmod]
    by_cases hc : row.gst_bytes.toNat < row.gst_usage + 100
    · rw [if_pos hc]
      refine ⟨by simp ; omega, ?_⟩
      intro hnone
      simp at hnone
    · rw [if_neg hc]
      refine ⟨by simp ; omega, ?_⟩
      intro _
      simp [updMap]
  · intro row hg hb
    simp only [verify_account_gst_usage, hg]
    rw [if_neg (by omega)]

/-- C6 (witness): the amended behavior at a funded row: the call succeeds
and charges the toll of 100. -/
theorem C6_witness :
    w6store.gst 7 = some w6row ∧ (0 : Int) ≤ w6row.gst_bytes ∧
    w6row.gst_usage + 100 < U64 ∧
    (verify_account_gst_usage w6store 7).1.gst 7 =
      some { w6row with gst_usage := w6row.gst_usage + 100 } := by
  have h := (C6_verify_gst w6store 7).2.1 w6row rfl (by decide) (by decide)
  exact ⟨rfl, by decide, by decide, h.2 (by rfl)⟩

/-- C9: the snapshot writer emits exactly one section per table in the fixed
`resource_index_set` order (limits, usage, gas balance, gas activation,
state, config), each holding that table's rows in natural (key) order; and
restoring a snapshot into a fresh store and re-exporting reproduces the
original snapshot exactly. -/
theorem C9_snapshot_roundtrip (st st' : SnapStore)
    (h : read_from_snapshot (add_to_snapshot st) = some st') :
    (add_to_snapshot st).map SnapSection.tag = [0, 1, 2, 3, 4, 5] ∧
    (∀ l, SnapSection.limitsSec l ∈ add_to_snapshot st →
      isChain limitsLe l = true ∧ l.Perm st.limitsRows) ∧
    (∀ l, SnapSection.usageSec l ∈ add_to_snapshot st →
      isChain usageLe l = true ∧ l.Perm st.usageRows) ∧
    (∀ l, SnapSection.gstSec l ∈ add_to_snapshot st →
      isChain gstLe l = true ∧ l.Perm st.gstRows) ∧
    (∀ l, SnapSection.activationSec l ∈ add_to_snapshot st →
      isChain activationLe l = true ∧ l.Perm st.activationRows) ∧
    add_to_snapshot st' = add_to_snapshot st := by
  have hst' : st' =
      { limitsRows := sortRows limitsLe st.limitsRows
        usageRows := sortRows usageLe st.usageRows
        gstRows := sortRows gstLe st.gstRows
        activationRows := sortRows activationLe st.activationRows
        stateRows := st.stateRows
        configRows := st.configRows } := by
    have := h.symm
    simpa [add_to_snapshot, read_from_snapshot] using this
  refine ⟨rfl, ?_, ?_, ?_, ?_, ?_⟩
  · intro l hl
    simp only [add_to_snapshot, List.mem_cons, List.not_mem_nil, or_false] at hl
    rcases hl with hl | hl | hl | hl | hl | hl <;> first
      | (cases hl
         exact ⟨isChain_sortRows _ (keyLe_total _ _) _, sortRows_perm _ _⟩)
      | (exact absurd hl (by simp))
  · intro l hl
    simp only [add_to_snapshot, List.mem_cons, List.not_mem_nil, or_false] at hl
    rcases hl with hl | hl | hl | hl | hl | hl <;> first
      | (cases hl
         exact ⟨isChain_sortRows _ (keyLe_total _ _) _, sortRows_perm _ _⟩)
      | (exact absurd hl (by simp))
  · intro l hl
    simp only [add_to_snapshot, List.mem_cons, List.not_mem_nil, or_false] at hl
    rcases hl with hl | hl | hl | hl | hl | hl <;> first
      | (cases hl
         exact ⟨isChain_sortRows _ (keyLe_total _ _) _, sortRows_perm _ _⟩)
      | (exact absurd hl (by simp))
  · intro l hl
    simp only [add_to_snapshot, List.mem_cons, List.not_mem_nil, or_false] at hl
    rcases hl with hl | hl | hl | hl | hl | hl <;> first
      | (cases hl
         exact ⟨isChain_sortRows _ (keyLe_total _ _) _, sortRows_perm _ _⟩)
      | (exact absurd hl (by simp))
  · subst hst'
    simp only [add_to_snapshot]
    rw [sortRows_idem limitsLe (fun a b => keyLe_total _ _ a b),
      sortRows_idem usageLe (fun a b => keyLe_total _ _ a b),
      sortRows_idem gstLe (fun a b => keyLe_total _ _ a b),
      sortRows_idem activationLe (fun a b => keyLe_total _ _ a b)]

/-- C9 (witness): the round trip at a concrete store with out-of-order rows. -/
theorem C9_witness :
    read_from_snapshot (add_to_snapshot w9store) = some w9sorted ∧
    add_to_snapshot w9sorted = add_to_snapshot w9store :=
  ⟨rfl, (C9_snapshot_roundtrip w9store w9sorted rfl).2.2.2.2.2⟩

/-- The store returned by `add_pending_ram_usage` keeps the activation
table unchanged. -/
theorem addPending_activation (s : Store) (a : AccountName) (d : Int) :
    (add_pending_ram_usage s a d).1.activation = s.activation := by
  by_cases h0 : d = 0
  · simp [add_pending_ram_usage, h0]
  · rcases hu : s.usage a with _ | u
    · simp [add_pending_ram_usage, h0, hu]
    · simp only [add_pending_ram_usage, if_neg h0, hu]
      split
      · rfl
      · split
        · rfl
        · split
          · unfold applyGasDelta
            split <;> rfl
          · rfl

/-- The gas-overlay update never touches the activation table. -/
theorem applyGasDelta_activation (s : Store) (a : AccountName) (d : Int) :
    (applyGasDelta s a d).activation = s.activation := by
  unfold applyGasDelta
  rcases s.gst a <;> rfl

/-- Effect of the gas-overlay update on an existing gas row. -/
theorem applyGasDelta_gst_some (s : Store) (a : AccountName) (d : Int)
    (row : ResourceGstRow) (hrow : s.gst a = some row) :
    (applyGasDelta s a d).gst a = some { row with gst_usage :=
      (if toInt64 row.gst_usage + d < 0 then 0
       else (((row.gst_usage : Int) + d).toNat) % U64) } := by
  unfold applyGasDelta
  rw [hrow]
  simp [updMap]

/-- `toInt64` is the identity below 2^63. -/
theorem toInt64_of_lt (n : Nat) (h : n < I64HI) : toInt64 n = (n : Int) := by
  have hstep : I64HI < U64 := by decide
  have hmod : n % U64 = n := Nat.mod_eq_of_lt (by omega)
  unfold toInt64
  rw [hmod, if_pos h]

/-- One successful `add_pending_ram_usage` call on a store with gas active
and an existing gas row whose `gst_usage` is below 2^63 moves `gst_usage` to
`max 0 (gst_usage + d)` and leaves gas active. -/
theorem addPending_gas_step (s : Store) (a : AccountName) (d : Int)
    (row : ResourceGstRow) (s' : Store)
    (hrow : s.gst a = some row) (hact : is_activation s = true)
    (hg : row.gst_usage < I64HI) (hdlo : -(I64HI : Int) ≤ d) (hdhi : d < I64HI)
    (hsucc : add_pending_ram_usage s a d = (s', none)) :
    s'.gst a = some { row with gst_usage := ((row.gst_usage : Int) + d).toNat } ∧
    is_activation s' = true := by
  have hval : (if toInt64 row.gst_usage + d < 0 then 0
      else (((row.gst_usage : Int) + d).toNat) % U64) =
      ((row.gst_usage : Int) + d).toNat := by
    rw [toInt64_of_lt row.gst_usage hg]
    split
    · omega
    · refine Nat.mod_eq_of_lt ?_
      simp only [U64, I64HI] at *
      omega
  by_cases h0 : d = 0
  · subst h0
    simp only [add_pending_ram_usage, if_pos rfl, Prod.mk.injEq] at hsucc
    obtain ⟨rfl, -⟩ := hsucc
    refine ⟨?_, hact⟩
    rw [hrow]
    congr 1
  · rcases hu : s.usage a with _ | u
    · simp [add_pending_ram_usage, h0, hu] at hsucc
    · simp only [add_pending_ram_usage, if_neg h0, hu] at hsucc
      split at hsucc
      · simp at hsucc
      · split at hsucc
        · simp at hsucc
        · split at hsucc
          · simp only [Prod.mk.injEq] at hsucc
            obtain ⟨hs', -⟩ := hsucc
            subst hs'
            constructor
            · unfold applyGasDelta
              dsimp only
              rw [hrow]
              dsimp only
              rw [hval]
              simp [updMap]
            · unfold is_activation applyGasDelta
              dsimp only
              rw [hrow]
              dsimp only
              unfold is_activation at hact
              exact hact
          · next hinactive => exact absurd hact hinactive

/-- One successful `add_pending_ram_usage` call with gas active and no gas
row yet creates the pending row `{gst_bytes = 0, gst_usage = max(d, 0)}` and
leaves gas active. -/
theorem addPending_gas_create (s : Store) (a : AccountName) (d : Int) (s' : Store)
    (hrow : s.gst a = none) (hact : is_activation s = true) (h0 : d ≠ 0)
    (hsucc : add_pending_ram_usage s a d = (s', none)) :
    s'.gst a = some { owner := a, pending := true, gst_bytes := 0, gst_usage := d.toNat } ∧
    is_activation s' = true := by
  have hv : (if d < 0 then (0 : Nat) else d.toNat) = d.toNat := by
    split <;> omega
  rcases hu : s.usage a with _ | u
  · simp [add_pending_ram_usage, h0, hu] at hsucc
  · simp only [add_pending_ram_usage, if_neg h0, hu] at hsucc
    split at hsucc
    · simp at hsucc
    · split at hsucc
      · simp at hsucc
      · split at hsucc
        · simp only [Prod.mk.injEq] at hsucc
          obtain ⟨hs', -⟩ := hsucc
          subst hs'
          constructor
          · unfold applyGasDelta
            dsimp only
            rw [hrow]
            dsimp only
            rw [hv]
            simp [updMap]
          · unfold is_activation applyGasDelta
            dsimp only
            rw [hrow]
            dsimp only
            unfold is_activation at hact
            exact hact
        · next hinactive => exact absurd hact hinactive

/-- Folding successful `add_pending_ram_usage` calls over a delta sequence
moves an existing gas row's `gst_usage` along the non-negative saturated
running sum, as long as every intermediate value stays below 2^63 and the
deltas are `int64_t` values. -/
theorem applyDeltas_sat (a : AccountName) :
    ∀ (ds : List Int) (s : Store) (row : ResourceGstRow) (s' : Store),
      s.gst a = some row → is_activation s = true →
      (∀ d ∈ ds, -(I64HI : Int) ≤ d ∧ d < I64HI) →
      (∀ i ∈ List.range (ds.length + 1), satFold row.gst_usage (ds.take i) < I64HI) →
      applyDeltas a s ds = (s', none) →
      s'.gst a = some { row with gst_usage := satFold row.gst_usage ds } := by
  intro ds
  induction ds with
  | nil =>
    intro s row s' hrow hact hd hb happ
    simp only [applyDeltas, Prod.mk.injEq] at happ
    obtain ⟨rfl, -⟩ := happ
    rw [hrow]
    rfl
  | cons d tl ih =>
    intro s row s' hrow hact hd hb happ
    have hg : row.gst_usage < I64HI := by
      have h := hb 0 (by simp)
      simpa [satFold] using h
    simp only [applyDeltas] at happ
    rcases hstep : add_pending_ram_usage s a d with ⟨s1, e1⟩
    rw [hstep] at happ
    rcases e1 with _ | e
    · obtain ⟨hdlo, hdhi⟩ := hd d (by simp)
      obtain ⟨hrow1, hact1⟩ := addPending_gas_step s a d row s1 hrow hact hg hdlo hdhi hstep
      have hb1 : ∀ i ∈ List.range (tl.length + 1),
          satFold (((row.gst_usage : Int) + d).toNat) (tl.take i) < I64HI := by
        intro i hi
        have h := hb (i + 1) (by simp only [List.mem_range] at hi ⊢ ; simp ; omega)
        simpa [satFold] using h
      have htl := ih s1 { row with gst_usage := ((row.gst_usage : Int) + d).toNat } s'
        hrow1 hact1 (fun d' hd' => hd d' (by simp [hd'])) hb1 happ
      rw [htl]
      rfl
    · simp at happ

/-- C5 (counterexample): with gas active and deltas `[2^63-1, 2^63-1, -1]`
(all nonzero `int64_t` values) the calls all succeed but leave
`gst_usage = 0`, while the non-negative saturation of the prefix sums is
`2^64 - 3`: the `int64_t` reinterpretation inside the saturation test misreads
a `gst_usage` of 2^64-2 as negative and zeroes it, refuting the claimed
prefix-sum characterization. -/
theorem C5_counterexample :
    (∀ d ∈ c5deltas, d ≠ 0) ∧
    (applyDeltas 7 c5store c5deltas).2 = none ∧
    ((applyDeltas 7 c5store c5deltas).1.gst 7).map (fun r => r.gst_usage) = some 0 ∧
    satFold 0 c5deltas = 18446744073709551613 ∧
    some (0 : Nat) ≠ some 18446744073709551613 := by
  exact ⟨by decide, rfl, rfl, by decide, by decide⟩

/-- C5 (amended): with gas active, a nonzero-delta `add_pending_ram_usage`
updates an existing pending gas row to `gst_usage = max(0, gst_usage + d)`
and creates the row with `{gst_bytes = 0, gst_usage = max(d, 0),
pending = true}` when absent; consequently over any sequence of nonzero
`int64_t` deltas whose saturated prefix sums all stay below 2^63,
`gst_usage` is exactly the non-negative saturation of the prefix sum from
the first call (values at or above 2^63 are misread as negative by the
`int64_t` cast in the saturation test, so the bound is necessary). -/
theorem C5_gas_saturation :
    (∀ s a d row s', s.gst a = some row → is_activation s = true →
      row.gst_usage < I64HI → -(I64HI : Int) ≤ d → d < I64HI →
      add_pending_ram_usage s a d = (s', none) →
      s'.gst a = some { row with gst_usage := ((row.gst_usage : Int) + d).toNat }) ∧
    (∀ s a (ds : List Int) s', s.gst a = none → is_activation s = true →
      (∀ d ∈ ds, d ≠ 0 ∧ -(I64HI : Int) ≤ d ∧ d < I64HI) →
      (∀ i ∈ List.range (ds.length + 1), satFold 0 (ds.take i) < I64HI) →
      ds ≠ [] → applyDeltas a s ds = (s', none) →
      s'.gst a = some { owner := a, pending := true, gst_bytes := 0
                        gst_usage := satFold 0 ds }) := by
  constructor
  · intro s a d row s' h1 h2 h3 h4 h5 h6
    exact (addPending_gas_step s a d row s' h1 h2 h3 h4 h5 h6).1
  · intro s a ds s' hnone hact hd hb hne happ
    cases ds with
    | nil => exact absurd rfl hne
    | cons d tl =>
      simp only [applyDeltas] at happ
      rcases hstep : add_pending_ram_usage s a d with ⟨s1, e1⟩
      rw [hstep] at happ
      rcases e1 with _ | e
      · obtain ⟨hd0, hdlo, hdhi⟩ := hd d (by simp)
        obtain ⟨hrow1, hact1⟩ := addPending_gas_create s a d s1 hnone hact hd0 hstep
        have hb1 : ∀ i ∈ List.range (tl.length + 1),
            satFold (d.toNat) (tl.take i) < I64HI := by
          intro i hi
          have h := hb (i + 1) (by simp only [List.mem_range] at hi ⊢ ; simp ; omega)
          have hz : (((0 : Nat) : Int) + d).toNat = d.toNat := by omega
          simpa [satFold, hz] using h
        have htl := applyDeltas_sat a tl s1 _ s' hrow1 hact1
          (fun d' hd' => ⟨(hd d' (by simp [hd'])).2.1, (hd d' (by simp [hd'])).2.2⟩)
          hb1 happ
        rw [htl]
        have hz : (((0 : Nat) : Int) + d).toNat = d.toNat := by omega
        simp [satFold, hz]
      · simp at happ

/-- C5 (witness): the amended saturation at deltas `[5, -10, 3]`: the gas row
is created and ends at `gst_usage = 3` after saturating at zero once. -/
theorem C5_witness :
    (applyDeltas 7 w5store w5deltas).1.gst 7 =
      some { owner := 7, pending := true, gst_bytes := 0, gst_usage := 3 } := by
  have h2 : (applyDeltas 7 w5store w5deltas).2 = none := rfl
  have hpair : applyDeltas 7 w5store w5deltas =
      ((applyDeltas 7 w5store w5deltas).1, (applyDeltas 7 w5store w5deltas).2) := rfl
  rw [h2] at hpair
  have h := C5_gas_saturation.2 w5store 7 w5deltas (applyDeltas 7 w5store w5deltas).1
    rfl rfl (by decide) (by decide) (by decide) hpair
  rw [h]
  decide

/-- One authorizer iteration only ever touches the usage table. -/
theorem processAccount_frame (s : Store) (cpu net t : Nat) (a : AccountName) :
    (processAccount s cpu net t a).1.state = s.state ∧
    (processAccount s cpu net t a).1.config = s.config ∧
    (processAccount s cpu net t a).1.limits = s.limits := by
  unfold processAccount
  rcases hu : s.usage a with _ | u
  · exact ⟨rfl, rfl, rfl⟩
  · rcases hl : get_account_limits s a with e | ⟨rb, nw, cw⟩
    · exact ⟨rfl, rfl, rfl⟩
    · dsimp only
      split
      · exact ⟨rfl, rfl, rfl⟩
      · split
        · exact ⟨rfl, rfl, rfl⟩
        · exact ⟨rfl, rfl, rfl⟩

/-- The whole authorizer loop only ever touches the usage table. -/
theorem processAccounts_frame (accounts : List AccountName) :
    ∀ (s : Store) (cpu net t : Nat),
      (processAccounts s accounts cpu net t).1.state = s.state ∧
      (processAccounts s accounts cpu net t).1.config = s.config ∧
      (processAccounts s accounts cpu net t).1.limits = s.limits := by
  induction accounts with
  | nil => intro s cpu net t; exact ⟨rfl, rfl, rfl⟩
  | cons a rest ih =>
    intro s cpu net t
    unfold processAccounts
    rcases hp : processAccount s cpu net t a with ⟨s1, e1⟩
    have hf := processAccount_frame s cpu net t a
    rw [hp] at hf
    rcases e1 with _ | e
    · dsimp only
      have h2 := ih s1 cpu net t
      exact ⟨h2.1.trans hf.1, h2.2.1.trans hf.2.1, h2.2.2.trans hf.2.2⟩
    · exact hf

/-- C3 (counterexample): a transaction with `cpu = 1` from an account with
zero cpu stake fails `CpuUsageExceeded` inside the authorizer loop, and the
block's pending cpu usage is left untouched -- the claim that every call adds
the transaction's usage to the pending totals fails on such calls. -/
theorem C3_counterexample :
    (add_transaction_usage c3store [0] 1 0 1).2 = some (.CpuUsageExceeded 0) ∧
    (add_transaction_usage c3store [0] 1 0 1).1.state.pending_cpu_usage = 0 ∧
    (0 : Nat) ≠ (c3store.state.pending_cpu_usage + 1) % U64 := by
  exact ⟨rfl, rfl, by decide⟩

/-- C3 (amended): every call whose per-account checks all pass adds the
transaction's cpu and net (in `uint64_t` arithmetic) to
`state.pending_cpu_usage` / `pending_net_usage`, and fails
`BlockResourceExhausted` exactly when an updated total exceeds its
`params.max`, the increments persisting even on that failure; hence after
every successful admission both pending totals are at most their
`params.max`. -/
theorem C3_block_usage (s : Store) (accounts : List AccountName) (cpu net t : Nat)
    (s1 : Store) (hloop : processAccounts s accounts cpu net t = (s1, none)) :
    (add_transaction_usage s accounts cpu net t).1.state.pending_cpu_usage =
      (s.state.pending_cpu_usage + cpu) % U64 ∧
    (add_transaction_usage s accounts cpu net t).1.state.pending_net_usage =
      (s.state.pending_net_usage + net) % U64 ∧
    ((add_transaction_usage s accounts cpu net t).2 = some .BlockResourceExhausted ↔
      (s.config.cpu_limit_parameters.max < (s.state.pending_cpu_usage + cpu) % U64 ∨
       s.config.net_limit_parameters.max < (s.state.pending_net_usage + net) % U64)) ∧
    ((add_transaction_usage s accounts cpu net t).2 = none →
      (s.state.pending_cpu_usage + cpu) % U64 ≤ s.config.cpu_limit_parameters.max ∧
      (s.state.pending_net_usage + net) % U64 ≤ s.config.net_limit_parameters.max) := by
  have hf := processAccounts_frame accounts s cpu net t
  rw [hloop] at hf
  obtain ⟨hst, hcf, -⟩ := hf
  unfold add_transaction_usage
  rw [hloop]
  dsimp only
  rw [hst, hcf]
  by_cases hc : s.config.cpu_limit_parameters.max < (s.state.pending_cpu_usage + cpu) % U64
  · rw [if_pos hc]
    exact ⟨rfl, rfl, by simp [hc], by simp⟩
  · rw [if_neg hc]
    by_cases hn : s.config.net_limit_parameters.max < (s.state.pending_net_usage + net) % U64
    · rw [if_pos hn]
      exact ⟨rfl, rfl, by simp [hn], by simp⟩
    · rw [if_neg hn]
      exact ⟨rfl, rfl, by simp [hc, hn], fun _ => by omega⟩

/-- C3 (witness): an accepted transaction from an unlimited account adds its
cpu usage to the pending total and stays within the block limit. -/
theorem C3_witness :
    (add_transaction_usage w3store [0] 5 0 1).1.state.pending_cpu_usage = 5 ∧
    (add_transaction_usage w3store [0] 5 0 1).2 = none := by
  have h2 : (processAccounts w3store [0] 5 0 1).2 = none := rfl
  have hpair : processAccounts w3store [0] 5 0 1 =
      ((processAccounts w3store [0] 5 0 1).1, (processAccounts w3store [0] 5 0 1).2) := rfl
  rw [h2] at hpair
  have h := C3_block_usage w3store [0] 5 0 1 _ hpair
  refine ⟨?_, rfl⟩
  rw [h.1]
  decide

/-- Resolved limits only depend on the limits table. -/
theorem get_account_limits_congr (s s' : Store) (h : s'.limits = s.limits)
    (a : AccountName) : get_account_limits s' a = get_account_limits s a := by
  unfold get_account_limits findLimitsRow
  rw [h]

/-- The errors one authorizer iteration can produce: a missing row, or a
usage-exceeded failure blaming that very account. -/
theorem processAccount_err_shape (s : Store) (cpu net t : Nat) (b : AccountName)
    (e : Err) (h : (processAccount s cpu net t b).2 = some e) :
    e = .MissingRow ∨ e = .CpuUsageExceeded b ∨ e = .NetUsageExceeded b := by
  unfold processAccount at h
  split at h
  · simp at h
    exact .inl h.symm
  · split at h
    · simp at h
      -- the only error of get_account_limits is MissingRow
      next heq =>
        unfold get_account_limits at heq
        split at heq
        · simp at heq
        · split at heq
          · simp at heq
          · simp at heq
            subst heq
            exact .inl h.symm
    · dsimp only at h
      split at h
      · simp at h
        exact .inr (.inl h.symm)
      · split at h
        · simp at h
          exact .inr (.inr h.symm)
        · simp at h

/-- When account `a`'s resolved cpu weight is negative, its cpu check is
skipped in every iteration of the authorizer loop, so the loop never fails
`CpuUsageExceeded` blaming `a`. -/
theorem processAccounts_no_cpu_violation (a : AccountName) (rb nw cw : Int)
    (hcw : cw < 0) :
    ∀ (accounts : List AccountName) (s : Store) (cpu net t : Nat),
      get_account_limits s a = .ok (rb, nw, cw) →
      (processAccounts s accounts cpu net t).2 ≠ some (.CpuUsageExceeded a) := by
  intro accounts
  induction accounts with
  | nil => intro s cpu net t hl; simp [processAccounts]
  | cons b rest ih =>
    intro s cpu net t hl
    unfold processAccounts
    rcases hp : processAccount s cpu net t b with ⟨s1, e1⟩
    rcases e1 with _ | e
    · dsimp only
      apply ih s1 cpu net t
      have hf := processAccount_frame s cpu net t b
      rw [hp] at hf
      rw [get_account_limits_congr s s1 hf.2.2 a]
      exact hl
    · dsimp only
      intro hcontra
      simp only [Option.some.injEq] at hcontra
      subst hcontra
      by_cases hba : b = a
      · subst hba
        have h2 : (processAccount s cpu net t b).2 = some (.CpuUsageExceeded b) := by
          rw [hp]
        unfold processAccount at h2
        rcases hub : s.usage b with _ | u
        · rw [hub] at h2
          simp at h2
        · rw [hub, hl] at h2
          dsimp only at h2
          split at h2
          · next hcond => exact absurd hcond.1 (by omega)
          · split at h2
            · simp at h2
            · simp at h2
      · have h2 : (processAccount s cpu net t b).2 = some (.CpuUsageExceeded a) := by
          rw [hp]
        rcases processAccount_err_shape s cpu net t b _ h2 with h3 | h3 | h3 <;>
          simp at h3
        exact hba h3.symm

/-- Symmetric to the cpu case: a negative resolved net weight means the loop
never fails `NetUsageExceeded` blaming that account. -/
theorem processAccounts_no_net_violation (a : AccountName) (rb nw cw : Int)
    (hnw : nw < 0) :
    ∀ (accounts : List AccountName) (s : Store) (cpu net t : Nat),
      get_account_limits s a = .ok (rb, nw, cw) →
      (processAccounts s accounts cpu net t).2 ≠ some (.NetUsageExceeded a) := by
  intro accounts
  induction accounts with
  | nil => intro s cpu net t hl; simp [processAccounts]
  | cons b rest ih =>
    intro s cpu net t hl
    unfold processAccounts
    rcases hp : processAccount s cpu net t b with ⟨s1, e1⟩
    rcases e1 with _ | e
    · dsimp only
      apply ih s1 cpu net t
      have hf := processAccount_frame s cpu net t b
      rw [hp] at hf
      rw [get_account_limits_congr s s1 hf.2.2 a]
      exact hl
    · dsimp only
      intro hcontra
      simp only [Option.some.injEq] at hcontra
      subst hcontra
      by_cases hba : b = a
      · subst hba
        have h2 : (processAccount s cpu net t b).2 = some (.NetUsageExceeded b) := by
          rw [hp]
        unfold processAccount at h2
        rcases hub : s.usage b with _ | u
        · rw [hub] at h2
          simp at h2
        · rw [hub, hl] at h2
          dsimp only at h2
          split at h2
          · simp at h2
          · split at h2
            · next hcond => exact absurd hcond.1 (by omega)
            · simp at h2
      · have h2 : (processAccount s cpu net t b).2 = some (.NetUsageExceeded a) := by
          rw [hp]
        rcases processAccount_err_shape s cpu net t b _ h2 with h3 | h3 | h3 <;>
          simp at h3
        exact hba h3.symm

/-- C1: in `add_transaction_usage` each authorizer's cpu and net usage is
first accumulated into its EMAs (persisting whatever the checks decide); the
per-account cpu check runs only when the resolved `cpu_weight` is
non-negative and `total_cpu_weight` is positive, and fails `CpuUsageExceeded`
exactly when `value_ex * W / RATE_PRECISION` exceeds
`(virtual_cpu_limit * W) * cpu_weight / total_cpu_weight` in truncating
128-bit arithmetic; symmetrically for net (whose check runs after the cpu
check passes).  An account with weight `-1` never fails the corresponding
usage-exceeded error, and the extended accessors return `{-1,-1,-1}` whenever
the weight is negative or the total weight is zero. -/
theorem C1_fair_share (s : Store) (a : AccountName) (cpu net t : Nat)
    (u : ResourceUsageRow) (rb nw cw : Int)
    (hu : s.usage a = some u) (hl : get_account_limits s a = .ok (rb, nw, cw)) :
    ((add_transaction_usage s [a] cpu net t).1.usage a =
      some (accumulateUsage s u cpu net t)) ∧
    ((add_transaction_usage s [a] cpu net t).2 = some (.CpuUsageExceeded a) ↔
      (0 ≤ cw ∧ 0 < s.state.total_cpu_weight ∧
        max_user_cpu_in_window s cw <
          cpu_used_in_window s (accumulateUsage s u cpu net t))) ∧
    ((add_transaction_usage s [a] cpu net t).2 = some (.NetUsageExceeded a) ↔
      (¬(0 ≤ cw ∧ 0 < s.state.total_cpu_weight ∧
          max_user_cpu_in_window s cw <
            cpu_used_in_window s (accumulateUsage s u cpu net t)) ∧
        0 ≤ nw ∧ 0 < s.state.total_net_weight ∧
          max_user_net_in_window s nw <
            net_used_in_window s (accumulateUsage s u cpu net t))) ∧
    (cw = -1 → ∀ accounts : List AccountName,
      (add_transaction_usage s accounts cpu net t).2 ≠ some (.CpuUsageExceeded a)) ∧
    (nw = -1 → ∀ accounts : List AccountName,
      (add_transaction_usage s accounts cpu net t).2 ≠ some (.NetUsageExceeded a)) ∧
    (cw < 0 ∨ s.state.total_cpu_weight = 0 → ∀ elastic,
      get_account_cpu_limit_ex s a elastic = .ok (-1, -1, -1)) ∧
    (nw < 0 ∨ s.state.total_net_weight = 0 → ∀ elastic,
      get_account_net_limit_ex s a elastic = .ok (-1, -1, -1)) := by
  have hpa : processAccount s cpu net t a =
      ({ s with usage := updMap s.usage a (accumulateUsage s u cpu net t) },
        if 0 ≤ cw ∧ 0 < s.state.total_cpu_weight ∧
            max_user_cpu_in_window s cw <
              cpu_used_in_window s (accumulateUsage s u cpu net t) then
          some (.CpuUsageExceeded a)
        else if 0 ≤ nw ∧ 0 < s.state.total_net_weight ∧
            max_user_net_in_window s nw <
              net_used_in_window s (accumulateUsage s u cpu net t) then
          some (.NetUsageExceeded a)
        else none) := by
    unfold processAccount
    rw [hu, hl]
    dsimp only
    split
    · rfl
    · split
      · rfl
      · rfl
  have hsentC : cw = -1 → ∀ accounts : List AccountName,
      (add_transaction_usage s accounts cpu net t).2 ≠ some (.CpuUsageExceeded a) := by
    intro hcw accounts
    have hloop := processAccounts_no_cpu_violation a rb nw cw (by omega)
      accounts s cpu net t hl
    unfold add_transaction_usage
    rcases hp : processAccounts s accounts cpu net t with ⟨s1, e1⟩
    rcases e1 with _ | e
    · dsimp only
      split
      · simp
      · split
        · simp
        · simp
    · dsimp only
      rw [hp] at hloop
      exact hloop
  have hsentN : nw = -1 → ∀ accounts : List AccountName,
      (add_transaction_usage s accounts cpu net t).2 ≠ some (.NetUsageExceeded a) := by
    intro hnw accounts
    have hloop := processAccounts_no_net_violation a rb nw cw (by omega)
      accounts s cpu net t hl
    unfold add_transaction_usage
    rcases hp : processAccounts s accounts cpu net t with ⟨s1, e1⟩
    rcases e1 with _ | e
    · dsimp only
      split
      · simp
      · split
        · simp
        · simp
    · dsimp only
      rw [hp] at hloop
      exact hloop
  have haccC : (cw < 0 ∨ s.state.total_cpu_weight = 0) → ∀ elastic : Bool,
      get_account_cpu_limit_ex s a elastic = .ok (-1, -1, -1) := by
    intro hcond elastic
    unfold get_account_cpu_limit_ex
    rw [hu, hl]
    dsimp only
    rw [if_pos hcond]
  have haccN : (nw < 0 ∨ s.state.total_net_weight = 0) → ∀ elastic : Bool,
      get_account_net_limit_ex s a elastic = .ok (-1, -1, -1) := by
    intro hcond elastic
    unfold get_account_net_limit_ex
    rw [hu, hl]
    dsimp only
    rw [if_pos hcond]
  by_cases hC : 0 ≤ cw ∧ 0 < s.state.total_cpu_weight ∧
      max_user_cpu_in_window s cw < cpu_used_in_window s (accumulateUsage s u cpu net t)
  · have hres : add_transaction_usage s [a] cpu net t =
        ({ s with usage := updMap s.usage a (accumulateUsage s u cpu net t) },
          some (.CpuUsageExceeded a)) := by
      unfold add_transaction_usage processAccounts
      rw [hpa, if_pos hC]
    refine ⟨?_, ?_, ?_, hsentC, hsentN, haccC, haccN⟩
    · rw [hres]; simp [updMap]
    · rw [hres]; simp [hC]
    · rw [hres]; simp [hC]
  · by_cases hN : 0 ≤ nw ∧ 0 < s.state.total_net_weight ∧
        max_user_net_in_window s nw < net_used_in_window s (accumulateUsage s u cpu net t)
    · have hres : add_transaction_usage s [a] cpu net t =
          ({ s with usage := updMap s.usage a (accumulateUsage s u cpu net t) },
            some (.NetUsageExceeded a)) := by
        unfold add_transaction_usage processAccounts
        rw [hpa, if_neg hC, if_pos hN]
      refine ⟨?_, ?_, ?_, hsentC, hsentN, haccC, haccN⟩
      · rw [hres]; simp [updMap]
      · rw [hres]; simp [hC]
      · rw [hres]; simp [hC, hN]
    · have hres : processAccounts s [a] cpu net t =
          ({ s with usage := updMap s.usage a (accumulateUsage s u cpu net t) }, none) := by
        unfold processAccounts
        rw [hpa, if_neg hC, if_neg hN]
        rfl
      refine ⟨?_, ?_, ?_, hsentC, hsentN, haccC, haccN⟩
      · unfold add_transaction_usage
        rw [hres]
        dsimp only
        split
        · simp [updMap]
        · split
          · simp [updMap]
          · simp [updMap]
      · unfold add_transaction_usage
        rw [hres]
        dsimp only
        constructor
        · intro hcontra
          split at hcontra
          · simp at hcontra
          · split at hcontra
            · simp at hcontra
            · simp at hcontra
        · intro hcontra
          exact absurd hcontra hC
      · unfold add_transaction_usage
        rw [hres]
        dsimp only
        constructor
        · intro hcontra
          split at hcontra
          · simp at hcontra
          · split at hcontra
            · simp at hcontra
            · simp at hcontra
        · intro hcontra
          exact absurd hcontra.2 hN

/-- C1 (witness): account 0 with zero stake out of total weight 1 trips the
cpu share check on one unit of usage, and an unlimited account's extended
cpu accessor returns the `{-1,-1,-1}` sentinel. -/
theorem C1_witness :
    c3store.usage 0 = some c3usage ∧
    get_account_limits c3store 0 = .ok (-1, -1, 0) ∧
    (add_transaction_usage c3store [0] 1 0 1).2 = some (.CpuUsageExceeded 0) ∧
    get_account_cpu_limit_ex w3store 0 true = .ok (-1, -1, -1) := by
  have h1 := C1_fair_share c3store 0 1 0 1 c3usage (-1) (-1) 0 rfl rfl
  have h2 := C1_fair_share w3store 0 1 0 1 c3usage (-1) (-1) (-1) rfl rfl
  refine ⟨rfl, rfl, ?_, ?_⟩
  · exact h1.2.1.mpr (by decide)
  · exact h2.2.2.2.2.2.1 (Or.inl (by decide)) true

/-- Success shape of the totals helper: the committed field receives the
pending value and the total moves by `new positive part - old positive part`
exactly (no truncation: both checks passed). -/
theorem update_state_and_value_ok (total : Nat) (value pending_value : Int)
    (t' : Nat) (v' : Int)
    (h : update_state_and_value total value pending_value = .ok (t', v')) :
    v' = pending_value ∧ t' + value.toNat = total + pending_value.toNat := by
  unfold update_state_and_value at h
  split at h
  · next h1 =>
    split at h
    · simp at h
    · next h2 =>
      split at h
      · split at h
        · simp at h
        · simp only [Except.ok.injEq, Prod.mk.injEq] at h
          obtain ⟨rfl, rfl⟩ := h
          exact ⟨rfl, by omega⟩
      · simp only [Except.ok.injEq, Prod.mk.injEq] at h
        obtain ⟨rfl, rfl⟩ := h
        have : pending_value.toNat = 0 := by omega
        refine ⟨rfl, by omega⟩
  · next h1 =>
    split at h
    · split at h
      · simp at h
      · simp only [Except.ok.injEq, Prod.mk.injEq] at h
        obtain ⟨rfl, rfl⟩ := h
        have : value.toNat = 0 := by omega
        refine ⟨rfl, by omega⟩
    · simp only [Except.ok.injEq, Prod.mk.injEq] at h
      obtain ⟨rfl, rfl⟩ := h
      have hv : value.toNat = 0 := by omega
      have hp : pending_value.toNat = 0 := by omega
      refine ⟨rfl, by omega⟩

/-- Failure condition of the totals helper: exactly an underflow when
reverting a positive old value, or an overflow when applying a positive
pending value afterwards. -/
theorem update_state_and_value_err (total : Nat) (value pending_value : Int) :
    update_state_and_value total value pending_value = .error .StateInconsistent ↔
      ((0 < value ∧ total < value.toNat) ∨
       (¬(0 < value ∧ total < value.toNat) ∧ 0 < pending_value ∧
         U64MAX - (if 0 < value then total - value.toNat else total) <
           pending_value.toNat)) := by
  unfold update_state_and_value
  by_cases h1 : 0 < value
  · rw [if_pos h1]
    by_cases h2 : total < value.toNat
    · rw [if_pos h2]
      simp [h1, h2]
    · rw [if_neg h2]
      by_cases h3 : 0 < pending_value
      · rw [if_pos h3]
        by_cases h4 : U64MAX - (total - value.toNat) < pending_value.toNat
        · rw [if_pos h4]
          simp [h1, h2, h3, h4]
        · rw [if_neg h4]
          simp [h1, h2, h3, h4]
      · rw [if_neg h3]
        simp [h1, h2, h3]
  · rw [if_neg h1]
    by_cases h3 : 0 < pending_value
    · rw [if_pos h3]
      by_cases h4 : U64MAX - total < pending_value.toNat
      · rw [if_pos h4]
        simp [h1, h3, h4]
      · rw [if_neg h4]
        simp [h1, h3, h4]
    · rw [if_neg h3]
      simp [h1, h3]

/-- A found limits row carries the searched key. -/
theorem findLimitsRow_shape (rows : List ResourceLimitsRow) (p : Bool)
    (a : AccountName) (c : ResourceLimitsRow)
    (h : findLimitsRow rows p a = some c) : c.pending = p ∧ c.owner = a := by
  have h2 := List.find?_some h
  simp only [Bool.and_eq_true, beq_iff_eq] at h2
  exact h2

/-- No pending row found means the owner is absent from the pending owners. -/
theorem findLimitsRow_none_pending (rows : List ResourceLimitsRow) (a : AccountName)
    (h : findLimitsRow rows true a = none) : a ∉ pendingOwners rows := by
  intro hmem
  simp only [pendingOwners, pendingRows, List.mem_map] at hmem
  obtain ⟨r, hr, hown⟩ := hmem
  rw [List.mem_filter] at hr
  have := List.find?_eq_none.mp h r hr.1
  simp only [Bool.and_eq_true, beq_iff_eq] at this
  exact this ⟨by simpa using hr.2, hown⟩

/-- `stepFun` leaves a row alone unless it is the matching committed row. -/
theorem stepFun_id (pr r : ResourceLimitsRow)
    (h : (!r.pending && r.owner == pr.owner) = false) : stepFun pr r = r := by
  unfold stepFun
  rw [if_neg (by simp_all)]

/-- `stepFun` preserves the key of every row. -/
theorem stepFun_key (pr r : ResourceLimitsRow) :
    (stepFun pr r).pending = r.pending ∧ (stepFun pr r).owner = r.owner := by
  unfold stepFun
  split <;> exact ⟨rfl, rfl⟩

/-- Committed lookups after a commit step are the old lookups passed through
`stepFun`. -/
theorem stepRows_find_committed (pr : ResourceLimitsRow) (b : AccountName) :
    ∀ rows : List ResourceLimitsRow,
      findLimitsRow (stepRows rows pr) false b =
        (findLimitsRow rows false b).map (stepFun pr) := by
  intro rows
  induction rows with
  | nil => rfl
  | cons r rest ih =>
    unfold stepRows findLimitsRow at ih ⊢
    by_cases hdrop : (r.pending && r.owner == pr.owner) = true
    · have hp : r.pending = true := by
        have h2 : r.pending = true ∧ (r.owner == pr.owner) = true := by simpa using hdrop
        exact h2.1
      rw [List.filter_cons_of_neg (by simp [hdrop])]
      have hskip : List.find? (fun r => r.pending == false && r.owner == b) (r :: rest) =
          List.find? (fun r => r.pending == false && r.owner == b) rest :=
        List.find?_cons_of_neg rest (by simp [hp])
      rw [hskip]
      exact ih
    · rw [List.filter_cons_of_pos (by simp [hdrop])]
      rw [List.map_cons]
      have hkey := stepFun_key pr r
      by_cases hfind : (r.pending == false && r.owner == b) = true
      · have h1 : List.find? (fun r => r.pending == false && r.owner == b)
            (stepFun pr r :: List.map (stepFun pr)
              (List.filter (fun r => !(r.pending && r.owner == pr.owner)) rest)) =
            some (stepFun pr r) :=
          List.find?_cons_of_pos _ (by simp only [hkey.1, hkey.2] ; exact hfind)
        have h2 : List.find? (fun r => r.pending == false && r.owner == b) (r :: rest) =
            some r :=
          List.find?_cons_of_pos rest hfind
        rw [h1, h2]
        rfl
      · have h1 : List.find? (fun r => r.pending == false && r.owner == b)
            (stepFun pr r :: List.map (stepFun pr)
              (List.filter (fun r => !(r.pending && r.owner == pr.owner)) rest)) =
            List.find? (fun r => r.pending == false && r.owner == b)
              (List.map (stepFun pr)
                (List.filter (fun r => !(r.pending && r.owner == pr.owner)) rest)) :=
          List.find?_cons_of_neg _ (by simp only [hkey.1, hkey.2] ; exact hfind)
        have h2 : List.find? (fun r => r.pending == false && r.owner == b) (r :: rest) =
            List.find? (fun r => r.pending == false && r.owner == b) rest :=
          List.find?_cons_of_neg rest hfind
        rw [h1, h2]
        exact ih

/-- A commit step erases exactly the pending rows of the committed owner. -/
theorem stepRows_pendingRows (pr : ResourceLimitsRow) :
    ∀ rows, pendingRows (stepRows rows pr) =
      (pendingRows rows).filter (fun r => !(r.owner == pr.owner)) := by
  intro rows
  induction rows with
  | nil => rfl
  | cons r rest ih =>
    unfold stepRows pendingRows at ih ⊢
    by_cases hdrop : (r.pending && r.owner == pr.owner) = true
    · obtain ⟨hp, ho⟩ : r.pending = true ∧ (r.owner == pr.owner) = true := by
        simpa using hdrop
      rw [List.filter_cons_of_neg (by simp [hdrop])]
      rw [List.filter_cons_of_pos (by simp [hp])]
      rw [List.filter_cons_of_neg (by simp [ho])]
      exact ih
    · rw [List.filter_cons_of_pos (by simp [hdrop])]
      rw [List.map_cons]
      by_cases hp : r.pending = true
      · have ho : (r.owner == pr.owner) = false := by
          cases hoo : (r.owner == pr.owner)
          · rfl
          · exact absurd (by simp [hp, hoo]) hdrop
        have hid : stepFun pr r = r := stepFun_id pr r (by simp [hp])
        rw [hid]
        rw [List.filter_cons_of_pos (by simp [hp])]
        rw [List.filter_cons_of_pos (by simp [hp])]
        rw [List.filter_cons_of_pos (by simp [ho])]
        rw [ih]
      · have hp' : r.pending = false := by simpa using hp
        have hkey := stepFun_key pr r
        rw [List.filter_cons_of_neg (by simp [hkey.1, hp'])]
        rw [List.filter_cons_of_neg (by simp [hp'])]
        exact ih

/-- A commit step keeps the committed owners (and their order). -/
theorem stepRows_committedOwners (pr : ResourceLimitsRow) :
    ∀ rows, committedOwners (stepRows rows pr) = committedOwners rows := by
  intro rows
  induction rows with
  | nil => rfl
  | cons r rest ih =>
    unfold stepRows committedOwners committedRows at ih ⊢
    by_cases hdrop : (r.pending && r.owner == pr.owner) = true
    · have hp : r.pending = true := by
        have h2 : r.pending = true ∧ (r.owner == pr.owner) = true := by simpa using hdrop
        exact h2.1
      rw [List.filter_cons_of_neg (by simp [hdrop])]
      rw [List.filter_cons_of_neg (by simp [hp])]
      exact ih
    · rw [List.filter_cons_of_pos (by simp [hdrop])]
      rw [List.map_cons]
      have hkey := stepFun_key pr r
      by_cases hp : r.pending = true
      · rw [List.filter_cons_of_neg (by simp [hkey.1, hp])]
        rw [List.filter_cons_of_neg (by simp [hp])]
        exact ih
      · have hp' : r.pending = false := by simpa using hp
        rw [List.filter_cons_of_pos (by simp [hkey.1, hp'])]
        rw [List.filter_cons_of_pos (by simp [hp'])]
        rw [List.map_cons, List.map_cons, ih, hkey.2]

/-- A commit step for an owner with no committed row keeps every committed
sum. -/
theorem rowSum_stepRows_not_mem (pr : ResourceLimitsRow) (f : ResourceLimitsRow → Nat) :
    ∀ rows, pr.owner ∉ committedOwners rows →
      rowSum f (stepRows rows pr) = rowSum f rows := by
  intro rows
  induction rows with
  | nil => intro _; rfl
  | cons r rest ih =>
    intro hmem
    unfold stepRows rowSum committedRows at ih ⊢
    unfold committedOwners committedRows at hmem
    by_cases hdrop : (r.pending && r.owner == pr.owner) = true
    · have hp : r.pending = true := by
        have h2 : r.pending = true ∧ (r.owner == pr.owner) = true := by simpa using hdrop
        exact h2.1
      rw [List.filter_cons_of_neg (by simp [hdrop])]
      rw [List.filter_cons_of_neg (by simp [hp])]
      rw [List.filter_cons_of_neg (by simp [hp])] at hmem
      exact ih hmem
    · rw [List.filter_cons_of_pos (by simp [hdrop])]
      rw [List.map_cons]
      have hkey := stepFun_key pr r
      by_cases hp : r.pending = true
      · rw [List.filter_cons_of_neg (by simp [hkey.1, hp])]
        rw [List.filter_cons_of_neg (by simp [hp])]
        rw [List.filter_cons_of_neg (by simp [hp])] at hmem
        exact ih hmem
      · have hp' : r.pending = false := by simpa using hp
        rw [List.filter_cons_of_pos (by simp [hp'])] at hmem
        rw [List.map_cons] at hmem
        have hro : r.owner ≠ pr.owner := by
          intro hco
          exact hmem (by simp [hco])
        have hid : stepFun pr r = r := stepFun_id pr r (by simp [hp', hro])
        rw [List.filter_cons_of_pos (by simp [hkey.1, hp'])]
        rw [List.filter_cons_of_pos (by simp [hp'])]
        rw [hid]
        rw [List.map_cons, List.map_cons, List.sum_cons, List.sum_cons]
        rw [ih (fun hc => hmem (List.mem_cons_of_mem _ hc))]

/-- A commit step replaces exactly the committed row of `pr.owner` in every
committed sum: the sum loses `f c` and gains the committed image of `pr`. -/
theorem rowSum_stepRows (pr : ResourceLimitsRow) (f : ResourceLimitsRow → Nat) (K : Nat)
    (hK : ∀ r, r.pending = false → r.owner = pr.owner → f (stepFun pr r) = K) :
    ∀ (rows : List ResourceLimitsRow) (c : ResourceLimitsRow),
      (committedOwners rows).Nodup →
      findLimitsRow rows false pr.owner = some c →
      rowSum f (stepRows rows pr) + f c = rowSum f rows + K := by
  intro rows
  induction rows with
  | nil => intro c _ hc; simp [findLimitsRow] at hc
  | cons r rest ih =>
    intro c hnodup hc
    unfold stepRows rowSum committedRows at ih ⊢
    unfold committedOwners committedRows at hnodup
    unfold findLimitsRow at hc
    by_cases hdrop : (r.pending && r.owner == pr.owner) = true
    · have hp : r.pending = true := by
        have h2 : r.pending = true ∧ (r.owner == pr.owner) = true := by simpa using hdrop
        exact h2.1
      rw [List.filter_cons_of_neg (by simp [hdrop])]
      rw [List.filter_cons_of_neg (by simp [hp])]
      rw [List.filter_cons_of_neg (by simp [hp])] at hnodup
      rw [List.find?_cons_of_neg _ (by simp [hp])] at hc
      exact ih c hnodup hc
    · rw [List.filter_cons_of_pos (by simp [hdrop])]
      rw [List.map_cons]
      have hkey := stepFun_key pr r
      by_cases hp : r.pending = true
      · rw [List.filter_cons_of_neg (by simp [hkey.1, hp])]
        rw [List.filter_cons_of_neg (by simp [hp])]
        rw [List.filter_cons_of_neg (by simp [hp])] at hnodup
        rw [List.find?_cons_of_neg _ (by simp [hp])] at hc
        exact ih c hnodup hc
      · have hp' : r.pending = false := by simpa using hp
        rw [List.filter_cons_of_pos (by simp [hp'])] at hnodup
        rw [List.map_cons, List.nodup_cons] at hnodup
        by_cases hro : (r.owner == pr.owner) = true
        · have hcr : c = r := by
            rw [List.find?_cons_of_pos _ (by simp [hp', hro])] at hc
            exact (Option.some.injEq _ _ ▸ hc).symm
          subst hcr
          have hnot : pr.owner ∉ (List.filter (fun r => !r.pending) rest).map
              (fun r => r.owner) := by
            have := hnodup.1
            simpa [beq_iff_eq.mp hro] using this
          rw [List.filter_cons_of_pos (by simp [hkey.1, hp'])]
          rw [List.filter_cons_of_pos (by simp [hp'])]
          rw [List.map_cons, List.map_cons, List.sum_cons, List.sum_cons]
          have hnm := rowSum_stepRows_not_mem pr f rest (by
            unfold committedOwners committedRows
            exact hnot)
          unfold stepRows rowSum committedRows at hnm
          rw [hnm]
          rw [hK c hp' (beq_iff_eq.mp hro)]
          omega
        · have hid : stepFun pr r = r :=
            stepFun_id pr r (by simp [hp', hro])
          rw [List.find?_cons_of_neg _ (by simp [hp', hro])] at hc
          rw [List.filter_cons_of_pos (by simp [hkey.1, hp'])]
          rw [List.filter_cons_of_pos (by simp [hp'])]
          rw [hid]
          rw [List.map_cons, List.map_cons, List.sum_cons, List.sum_cons]
          have := ih c hnodup.2 hc
          omega

/-- Main induction for the commit loop: starting from a store whose pending
owners are distinct, each backed by a committed row, with distinct committed
owners and consistent totals, a successful run commits every pending row
into its committed row, leaves other committed rows alone, removes all
pending rows, and keeps the totals equal to the committed sums. -/
theorem processPending_spec :
    ∀ (plist : List ResourceLimitsRow) (s s' : Store),
      pendingRows s.limits = plist →
      (pendingOwners s.limits).Nodup →
      (∀ o ∈ pendingOwners s.limits, (findLimitsRow s.limits false o).isSome) →
      (committedOwners s.limits).Nodup →
      totalsConsistent s →
      processPending plist s = .ok s' →
      pendingRows s'.limits = [] ∧
      (∀ b, b ∉ pendingOwners s.limits →
        findLimitsRow s'.limits false b = findLimitsRow s.limits false b) ∧
      (∀ p ∈ plist, findLimitsRow s'.limits false p.owner =
        some { owner := p.owner, pending := false, ram_bytes := p.ram_bytes
               net_weight := p.net_weight, cpu_weight := p.cpu_weight }) ∧
      totalsConsistent s' := by
  intro plist
  induction plist with
  | nil =>
    intro s s' hp hn1 hn2 hn3 hcons h
    simp only [processPending] at h
    obtain rfl : s = s' := by simpa using h
    exact ⟨hp, fun b _ => rfl, by simp, hcons⟩
  | cons p rest ih =>
    intro s s' hp hn1 hn2 hn3 hcons h
    have howners : pendingOwners s.limits = p.owner :: rest.map (fun r => r.owner) := by
      unfold pendingOwners
      rw [hp]
      rfl
    have hpo_mem : p.owner ∈ pendingOwners s.limits := by
      rw [howners]
      exact List.mem_cons_self _ _
    obtain ⟨c, hc⟩ := Option.isSome_iff_exists.mp (hn2 p.owner hpo_mem)
    have hcshape := findLimitsRow_shape _ _ _ _ hc
    rw [howners, List.nodup_cons] at hn1
    simp only [processPending] at h
    rw [hc] at h
    dsimp only at h
    rcases h1 : update_state_and_value s.state.total_ram_bytes c.ram_bytes p.ram_bytes
      with e1 | ⟨t1, v1⟩
    · rw [h1] at h
      simp at h
    rcases h2 : update_state_and_value s.state.total_cpu_weight c.cpu_weight p.cpu_weight
      with e2 | ⟨t2, v2⟩
    · rw [h1, h2] at h
      simp at h
    rcases h3 : update_state_and_value s.state.total_net_weight c.net_weight p.net_weight
      with e3 | ⟨t3, v3⟩
    · rw [h1, h2, h3] at h
      simp at h
    rw [h1, h2, h3] at h
    dsimp only at h
    obtain ⟨-, hram⟩ := update_state_and_value_ok _ _ _ _ _ h1
    obtain ⟨-, hcpu⟩ := update_state_and_value_ok _ _ _ _ _ h2
    obtain ⟨-, hnet⟩ := update_state_and_value_ok _ _ _ _ _ h3
    -- the store after committing p
    set snext : Store :=
      { s with
        state := { s.state with
          total_ram_bytes := t1
          total_cpu_weight := t2
          total_net_weight := t3 }
        limits := stepRows s.limits p } with hsnext
    -- pending rows of snext
    have hpnext : pendingRows snext.limits = rest := by
      show pendingRows (stepRows s.limits p) = rest
      rw [stepRows_pendingRows, hp]
      have hhead : (!(p.owner == p.owner)) = false := by simp
      rw [List.filter_cons_of_neg (by simp)]
      apply List.filter_eq_self.mpr
      intro r hr
      have : r.owner ∈ rest.map (fun r => r.owner) := List.mem_map_of_mem _ hr
      have hne : r.owner ≠ p.owner := by
        intro he
        exact hn1.1 (he ▸ this)
      simp [hne]
    have hownext : pendingOwners snext.limits = rest.map (fun r => r.owner) := by
      unfold pendingOwners
      rw [hpnext]
    have hn1next : (pendingOwners snext.limits).Nodup := by
      rw [hownext]
      exact hn1.2
    have hfindnext : ∀ b, findLimitsRow snext.limits false b =
        (findLimitsRow s.limits false b).map (stepFun p) := by
      intro b
      show findLimitsRow (stepRows s.limits p) false b = _
      exact stepRows_find_committed p b s.limits
    have hn2next : ∀ o ∈ pendingOwners snext.limits,
        (findLimitsRow snext.limits false o).isSome := by
      intro o ho
      rw [hfindnext]
      have : o ∈ pendingOwners s.limits := by
        rw [howners]
        exact List.mem_cons_of_mem _ (hownext ▸ ho)
      have := hn2 o this
      rcases hfo : findLimitsRow s.limits false o with _ | r
      · rw [hfo] at this
        simp at this
      · simp
    have hn3next : (committedOwners snext.limits).Nodup := by
      show (committedOwners (stepRows s.limits p)).Nodup
      rw [stepRows_committedOwners]
      exact hn3
    have hconsnext : totalsConsistent snext := by
      obtain ⟨hr, hcp, hnt⟩ := hcons
      refine ⟨?_, ?_, ?_⟩
      · have hs := rowSum_stepRows p (fun r => r.ram_bytes.toNat) p.ram_bytes.toNat
          (by intro r h1 h2 ; unfold stepFun ; rw [if_pos (by simp [h1, h2])])
          s.limits c hn3 hc
        dsimp only at hs
        show t1 = ramSum (stepRows s.limits p)
        unfold ramSum at hr ⊢
        omega
      · have hs := rowSum_stepRows p (fun r => r.cpu_weight.toNat) p.cpu_weight.toNat
          (by intro r h1 h2 ; unfold stepFun ; rw [if_pos (by simp [h1, h2])])
          s.limits c hn3 hc
        dsimp only at hs
        show t2 = cpuSum (stepRows s.limits p)
        unfold cpuSum at hcp ⊢
        omega
      · have hs := rowSum_stepRows p (fun r => r.net_weight.toNat) p.net_weight.toNat
          (by intro r h1 h2 ; unfold stepFun ; rw [if_pos (by simp [h1, h2])])
          s.limits c hn3 hc
        dsimp only at hs
        show t3 = netSum (stepRows s.limits p)
        unfold netSum at hnt ⊢
        omega
    obtain ⟨g1, g2, g3, g4⟩ := ih snext s' hpnext hn1next hn2next hn3next hconsnext h
    refine ⟨g1, ?_, ?_, g4⟩
    · intro b hb
      have hb1 : b ≠ p.owner := by
        intro he
        exact hb (he ▸ hpo_mem)
      have hb2 : b ∉ pendingOwners snext.limits := by
        rw [hownext]
        intro hmem
        exact hb (by rw [howners] ; exact List.mem_cons_of_mem _ hmem)
      rw [g2 b hb2, hfindnext]
      rcases hfo : findLimitsRow s.limits false b with _ | r
      · rfl
      · have hshape := findLimitsRow_shape _ _ _ _ hfo
        have : stepFun p r = r :=
          stepFun_id p r (by simp [hshape.2, hb1])
        simp [this]
    · intro q hq
      rcases List.mem_cons.mp hq with rfl | hq2
      · have hnp : q.owner ∉ pendingOwners snext.limits := by
          rw [hownext]
          exact hn1.1
        rw [g2 q.owner hnp, hfindnext, hc]
        have : stepFun q c =
            { owner := q.owner, pending := false, ram_bytes := q.ram_bytes
              net_weight := q.net_weight, cpu_weight := q.cpu_weight } := by
          unfold stepFun
          rw [if_pos (by simp [hcshape.1, hcshape.2])]
          rcases c with ⟨co, cp, crb, cnw, ccw⟩
          obtain ⟨h5, h6⟩ := hcshape
          simp at h5 h6
          rw [h5, h6]
        rw [Option.map_some', this]
      · exact g3 q hq2

/-- Overwriting pending fields keeps the committed rows untouched. -/
theorem setPendingFields_committedRows (a : AccountName) (rb nw cw : Int) :
    ∀ rows, committedRows (setPendingFields rows a rb nw cw) = committedRows rows := by
  intro rows
  induction rows with
  | nil => rfl
  | cons r rest ih =>
    unfold setPendingFields committedRows at ih ⊢
    rw [List.map_cons]
    by_cases hm : (r.pending && r.owner == a) = true
    · have hp : r.pending = true := by
        have h2 : r.pending = true ∧ (r.owner == a) = true := by simpa using hm
        exact h2.1
      rw [if_pos hm]
      rw [List.filter_cons_of_neg (by simp [hp])]
      rw [List.filter_cons_of_neg (by simp [hp])]
      exact ih
    · rw [if_neg hm]
      by_cases hp : r.pending = true
      · rw [List.filter_cons_of_neg (by simp [hp])]
        rw [List.filter_cons_of_neg (by simp [hp])]
        exact ih
      · have hp' : r.pending = false := by simpa using hp
        rw [List.filter_cons_of_pos (by simp [hp'])]
        rw [List.filter_cons_of_pos (by simp [hp'])]
        rw [ih]

/-- Overwriting pending fields keeps the pending owners (and their order). -/
theorem setPendingFields_pendingOwners (a : AccountName) (rb nw cw : Int) :
    ∀ rows, pendingOwners (setPendingFields rows a rb nw cw) = pendingOwners rows := by
  intro rows
  induction rows with
  | nil => rfl
  | cons r rest ih =>
    unfold setPendingFields pendingOwners pendingRows at ih ⊢
    rw [List.map_cons]
    by_cases hm : (r.pending && r.owner == a) = true
    · have hp : r.pending = true := by
        have h2 : r.pending = true ∧ (r.owner == a) = true := by simpa using hm
        exact h2.1
      rw [if_pos hm]
      rw [List.filter_cons_of_pos (by simp [hp])]
      rw [List.filter_cons_of_pos (by simp [hp])]
      rw [List.map_cons, List.map_cons, ih]
    · rw [if_neg hm]
      by_cases hp : r.pending = true
      · rw [List.filter_cons_of_pos (by simp [hp])]
        rw [List.filter_cons_of_pos (by simp [hp])]
        rw [List.map_cons, List.map_cons, ih]
      · have hp' : r.pending = false := by simpa using hp
        rw [List.filter_cons_of_neg (by simp [hp'])]
        rw [List.filter_cons_of_neg (by simp [hp'])]
        exact ih

/-- Overwriting pending fields keeps every committed lookup. -/
theorem setPendingFields_find_committed (a : AccountName) (rb nw cw : Int)
    (b : AccountName) :
    ∀ rows, findLimitsRow (setPendingFields rows a rb nw cw) false b =
      findLimitsRow rows false b := by
  intro rows
  induction rows with
  | nil => rfl
  | cons r rest ih =>
    unfold setPendingFields findLimitsRow at ih ⊢
    rw [List.map_cons]
    by_cases hm : (r.pending && r.owner == a) = true
    · have hp : r.pending = true := by
        have h2 : r.pending = true ∧ (r.owner == a) = true := by simpa using hm
        exact h2.1
      rw [if_pos hm]
      have h1 : List.find? (fun r => r.pending == false && r.owner == b)
          ({ r with ram_bytes := rb, net_weight := nw, cpu_weight := cw } ::
            List.map (fun r => if r.pending && r.owner == a then
              { r with ram_bytes := rb, net_weight := nw, cpu_weight := cw } else r) rest) =
          List.find? (fun r => r.pending == false && r.owner == b)
            (List.map (fun r => if r.pending && r.owner == a then
              { r with ram_bytes := rb, net_weight := nw, cpu_weight := cw } else r) rest) :=
        List.find?_cons_of_neg _ (by simp [hp])
      have h2 : List.find? (fun r => r.pending == false && r.owner == b) (r :: rest) =
          List.find? (fun r => r.pending == false && r.owner == b) rest :=
        List.find?_cons_of_neg rest (by simp [hp])
      rw [h1, h2]
      exact ih
    · rw [if_neg hm]
      by_cases hfind : (r.pending == false && r.owner == b) = true
      · have h1 : List.find? (fun r => r.pending == false && r.owner == b)
            (r :: List.map (fun r => if r.pending && r.owner == a then
              { r with ram_bytes := rb, net_weight := nw, cpu_weight := cw } else r) rest) =
            some r :=
          List.find?_cons_of_pos _ hfind
        have h2 : List.find? (fun r => r.pending == false && r.owner == b) (r :: rest) =
            some r :=
          List.find?_cons_of_pos rest hfind
        rw [h1, h2]
      · have h1 : List.find? (fun r => r.pending == false && r.owner == b)
            (r :: List.map (fun r => if r.pending && r.owner == a then
              { r with ram_bytes := rb, net_weight := nw, cpu_weight := cw } else r) rest) =
            List.find? (fun r => r.pending == false && r.owner == b)
              (List.map (fun r => if r.pending && r.owner == a then
                { r with ram_bytes := rb, net_weight := nw, cpu_weight := cw } else r) rest) :=
          List.find?_cons_of_neg _ (by simpa using hfind)
        have h2 : List.find? (fun r => r.pending == false && r.owner == b) (r :: rest) =
            List.find? (fun r => r.pending == false && r.owner == b) rest :=
          List.find?_cons_of_neg rest (by simpa using hfind)
        rw [h1, h2]
        exact ih

/-- `set_account_limits` touches only pending rows: the state, the committed
rows and every committed lookup are unchanged, and the pending owners either
stay the same (staged row already present) or gain the target account, which
then must already have a committed row. -/
theorem set_account_limits_inv (s : Store) (a : AccountName) (rb nw cw : Int)
    (s' : Store) (dec : Bool) (h : set_account_limits s a rb nw cw = .ok (s', dec)) :
    s'.state = s.state ∧
    committedRows s'.limits = committedRows s.limits ∧
    (∀ b, findLimitsRow s'.limits false b = findLimitsRow s.limits false b) ∧
    (pendingOwners s'.limits = pendingOwners s.limits ∨
      (pendingOwners s'.limits = a :: pendingOwners s.limits ∧
       a ∉ pendingOwners s.limits ∧ (findLimitsRow s.limits false a).isSome)) := by
  unfold set_account_limits at h
  split at h
  · simp only [Except.ok.injEq, Prod.mk.injEq] at h
    obtain ⟨hs', -⟩ := h
    subst hs'
    refine ⟨rfl, setPendingFields_committedRows a rb nw cw s.limits,
      fun b => setPendingFields_find_committed a rb nw cw b s.limits,
      .inl (setPendingFields_pendingOwners a rb nw cw s.limits)⟩
  · next hnone =>
    split at h
    · simp at h
    · next c hcfind =>
      simp only [Except.ok.injEq, Prod.mk.injEq] at h
      obtain ⟨hs', -⟩ := h
      subst hs'
      refine ⟨rfl, ?_, ?_, .inr ⟨?_, findLimitsRow_none_pending _ _ hnone, by
        rw [hcfind] ; rfl⟩⟩
      · show committedRows (_ :: s.limits) = committedRows s.limits
        unfold committedRows
        rw [List.filter_cons_of_neg (by simp)]
      · intro b
        show findLimitsRow (_ :: s.limits) false b = findLimitsRow s.limits false b
        unfold findLimitsRow
        exact List.find?_cons_of_neg s.limits (by simp)
      · show pendingOwners (_ :: s.limits) = a :: pendingOwners s.limits
        unfold pendingOwners pendingRows
        rw [List.filter_cons_of_pos (by simp)]
        rfl

/-- Folding `set_account_limits` calls preserves the commit loop's
preconditions. -/
theorem apply_set_calls_inv (calls : List (AccountName × Int × Int × Int)) :
    ∀ s s', apply_set_calls s calls = .ok s' →
      (pendingOwners s.limits).Nodup →
      (∀ o ∈ pendingOwners s.limits, (findLimitsRow s.limits false o).isSome) →
      (committedOwners s.limits).Nodup →
      totalsConsistent s →
      (pendingOwners s'.limits).Nodup ∧
      (∀ o ∈ pendingOwners s'.limits, (findLimitsRow s'.limits false o).isSome) ∧
      (committedOwners s'.limits).Nodup ∧
      totalsConsistent s' := by
  induction calls with
  | nil =>
    intro s s' h h1 h2 h3 h4
    simp only [apply_set_calls] at h
    obtain rfl : s = s' := by simpa using h
    exact ⟨h1, h2, h3, h4⟩
  | cons call rest ih =>
    obtain ⟨a, rb, nw, cw⟩ := call
    intro s s' h h1 h2 h3 h4
    simp only [apply_set_calls] at h
    rcases hset : set_account_limits s a rb nw cw with e | ⟨s1, dec⟩
    · rw [hset] at h
      simp at h
    · rw [hset] at h
      dsimp only at h
      obtain ⟨hst, hcrows, hcfind, hpend⟩ := set_account_limits_inv s a rb nw cw s1 dec hset
      have hco : committedOwners s1.limits = committedOwners s.limits := by
        unfold committedOwners
        rw [hcrows]
      have h1' : (pendingOwners s1.limits).Nodup := by
        rcases hpend with he | ⟨he, hnm, -⟩
        · rw [he]; exact h1
        · rw [he]; exact List.nodup_cons.mpr ⟨hnm, h1⟩
      have h2' : ∀ o ∈ pendingOwners s1.limits,
          (findLimitsRow s1.limits false o).isSome := by
        intro o ho
        rw [hcfind o]
        rcases hpend with he | ⟨he, -, hsome⟩
        · exact h2 o (he ▸ ho)
        · rw [he] at ho
          rcases List.mem_cons.mp ho with rfl | ho2
          · exact hsome
          · exact h2 o ho2
      have h3' : (committedOwners s1.limits).Nodup := by
        rw [hco]; exact h3
      have h4' : totalsConsistent s1 := by
        obtain ⟨ha, hb, hc⟩ := h4
        unfold totalsConsistent ramSum cpuSum netSum rowSum
        rw [hst, hcrows]
        exact ⟨ha, hb, hc⟩
      exact ih s1 s' h h1' h2' h3' h4'

/-- C7: from a consistent store (distinct pending and committed owners,
every pending owner backed by a committed row, totals equal to the committed
sums), any sequence of successful `set_account_limits` calls followed by one
successful `process_account_limit_updates` leaves no pending rows, writes
each staged pending row's values into its committed row, and re-establishes
`total_ram_bytes` / `total_cpu_weight` / `total_net_weight` as the sums of
the non-negative committed values; and the commit's `update_state_and_value`
helper fails with `StateInconsistent` exactly when reverting a positive old
value would underflow the `uint64_t` total or applying a positive pending
value afterwards would overflow it. -/
theorem C7_limit_commit (s0 : Store) (calls : List (AccountName × Int × Int × Int))
    (s1 s2 : Store)
    (hn1 : (pendingOwners s0.limits).Nodup)
    (hn2 : ∀ o ∈ pendingOwners s0.limits, (findLimitsRow s0.limits false o).isSome)
    (hn3 : (committedOwners s0.limits).Nodup)
    (hn4 : totalsConsistent s0)
    (hcalls : apply_set_calls s0 calls = .ok s1)
    (hproc : process_account_limit_updates s1 = .ok s2) :
    pendingRows s2.limits = [] ∧
    (∀ p ∈ pendingRows s1.limits, findLimitsRow s2.limits false p.owner =
      some { owner := p.owner, pending := false, ram_bytes := p.ram_bytes
             net_weight := p.net_weight, cpu_weight := p.cpu_weight }) ∧
    totalsConsistent s2 ∧
    (∀ total value pending_value,
      update_state_and_value total value pending_value = .error .StateInconsistent ↔
        ((0 < value ∧ total < value.toNat) ∨
         (¬(0 < value ∧ total < value.toNat) ∧ 0 < pending_value ∧
           U64MAX - (if 0 < value then total - value.toNat else total) <
             pending_value.toNat))) := by
  obtain ⟨i1, i2, i3, i4⟩ := apply_set_calls_inv calls s0 s1 hcalls hn1 hn2 hn3 hn4
  have hps : processPending (pendingRows s1.limits) s1 = .ok s2 := hproc
  obtain ⟨g1, g2, g3, g4⟩ :=
    processPending_spec (pendingRows s1.limits) s1 s2 rfl i1 i2 i3 i4 hps
  exact ⟨g1, g3, g4, fun t v pv => update_state_and_value_err t v pv⟩

/-- C7 (witness): one staged update `(ram, net, cpu) := (5, 6, 7)` for
account 1 over committed `(2, 3, 4)` with matching totals commits cleanly. -/
theorem C7_witness :
    (pendingOwners w7s0.limits).Nodup ∧
    totalsConsistent w7s0 ∧
    apply_set_calls w7s0 w7calls = .ok w7s1 ∧
    process_account_limit_updates w7s1 = .ok w7s2 ∧
    pendingRows w7s2.limits = [] ∧
    totalsConsistent w7s2 ∧
    findLimitsRow w7s2.limits false 1 =
      some { owner := 1, pending := false, ram_bytes := 5
             net_weight := 6, cpu_weight := 7 } := by
  have h := C7_limit_commit w7s0 w7calls w7s1 w7s2 (by decide) (by decide) (by decide)
    (by refine ⟨?_, ?_, ?_⟩ <;> rfl) rfl rfl
  refine ⟨by decide, by refine ⟨?_, ?_, ?_⟩ <;> rfl, rfl, rfl, h.1, h.2.2.1, ?_⟩
  have h2 := h.2.1
    { owner := 1, pending := true, ram_bytes := 5, net_weight := 6, cpu_weight := 7 }
    (by decide)
  exact h2

end GstResource
